import Mathlib

/-!
Shallow embedding of the RouteForge redirect / click-tracking core.

The definitions below are translated from the repository sources:
`app/routes_redirect.py` (redirect handler and per-IP token bucket),
`app/middleware/rate_limit.py` (sliding-window middleware limiter),
`app/utils/enrich.py` (referrer / UTM parsing and serialization),
`app/utils/validators.py` (target URL validation),
`app/worker/queue.py` (in-process task queue) and
`app/hooks/dispatcher.py` (webhook delivery with retry/backoff).

Python strings are modelled as lists of characters; `float` values in the
rate-limiter arithmetic are modelled as exact rationals; fallible Python
code (functions that raise `ValueError`) returns `Option` / `Except`.
Percent-coding is modelled at byte level and is faithful to CPython on
ASCII data, the range on which every theorem below operates.
-/

namespace RouteForge

/-- Python `str` values, modelled as lists of characters. -/
abbrev Str := List Char

/-- Characters stripped by Python `str.strip()` (the ASCII whitespace class). -/
def pyIsSpace (c : Char) : Bool :=
  c = ' ' || c = '\t' || c = '\n' || c = '\r' || c.toNat = 11 || c.toNat = 12

/-- Python `str.strip()`. -/
def pyStrip (s : Str) : Str :=
  ((s.dropWhile pyIsSpace).reverse.dropWhile pyIsSpace).reverse

/-- Python `str.lower()` on one character (ASCII range; theorems stay in ASCII). -/
def pyLowerChar (c : Char) : Char :=
  if 'A' ≤ c && c ≤ 'Z' then Char.ofNat (c.toNat + 32) else c

/-- Python `str.lower()`. -/
def pyLower (s : Str) : Str := s.map pyLowerChar

/-- Python truthiness of an optional string: `None` and `""` are falsy. -/
def optTruthy (o : Option Str) : Bool :=
  match o with
  | none => false
  | some s => !s.isEmpty

/-- Python `a or b` on optional strings. -/
def pyOr (a b : Option Str) : Option Str := if optTruthy a then a else b

/-- Python `s.split(sep, 1)`: split at the first occurrence of `sep`,
`none` when `sep` does not occur. -/
def splitOnce (sep : Char) : Str → Option (Str × Str)
  | [] => none
  | c :: rest =>
    if c = sep then some ([], rest)
    else
      match splitOnce sep rest with
      | none => none
      | some (a, b) => some (c :: a, b)

/-- Python `s.rsplit(sep, 1)` / the split used by `rpartition`: split at the
last occurrence of `sep`. -/
def rsplitOnce (sep : Char) (s : Str) : Option (Str × Str) :=
  match splitOnce sep s.reverse with
  | none => none
  | some (a, b) => some (b.reverse, a.reverse)

/-- The part of `s` before the first `sep` (all of `s` if `sep` is absent),
as in Python `s.split(sep, 1)[0]` or `s.partition(sep)[0]`. -/
def takeUntil (sep : Char) (s : Str) : Str :=
  match splitOnce sep s with
  | none => s
  | some (a, _) => a

/-- The part of `s` after the last `sep` (all of `s` if `sep` is absent),
as in Python `s.rpartition(sep)[2]`. -/
def afterLast (sep : Char) (s : Str) : Str :=
  match splitOnce sep s.reverse with
  | none => s
  | some (a, _) => a.reverse

/-- Substring test, Python `needle in haystack`. -/
def containsSub (needle : Str) : Str → Bool
  | [] => needle.isEmpty
  | c :: rest => needle.isPrefixOf (c :: rest) || containsSub needle rest

/-- Hex digit test used by percent-decoding. -/
def isHexDigit (c : Char) : Bool :=
  ('0' ≤ c && c ≤ '9') || ('a' ≤ c && c ≤ 'f') || ('A' ≤ c && c ≤ 'F')

/-- Value of a hex digit. -/
def hexVal (c : Char) : Nat :=
  if '0' ≤ c && c ≤ '9' then c.toNat - 48
  else if 'a' ≤ c && c ≤ 'f' then c.toNat - 87
  else c.toNat - 55

/-- Upper-case hex digit, as emitted by `urllib.parse.quote`. -/
def hexDigitUpper (n : Nat) : Char :=
  if n < 10 then Char.ofNat (48 + n) else Char.ofNat (55 + n)

/-- UTF-8 encoding of a code point (used by `quote` for non-safe characters). -/
def utf8Bytes (n : Nat) : List Nat :=
  if n < 128 then [n]
  else if n < 2048 then [192 + n / 64, 128 + n % 64]
  else if n < 65536 then [224 + n / 4096, 128 + (n / 64) % 64, 128 + n % 64]
  else [240 + n / 262144, 128 + (n / 4096) % 64, 128 + (n / 64) % 64, 128 + n % 64]

/-- The `_ALWAYS_SAFE` character class of `urllib.parse.quote`. -/
def alwaysSafe (c : Char) : Bool :=
  ('a' ≤ c && c ≤ 'z') || ('A' ≤ c && c ≤ 'Z') || ('0' ≤ c && c ≤ '9') ||
    c = '_' || c = '.' || c = '-' || c = '~'

/-- Percent-escape of one byte. -/
def percentByte (b : Nat) : List Char :=
  ['%', hexDigitUpper (b / 16), hexDigitUpper (b % 16)]

/-- `urllib.parse.quote_plus(c, safe="")` on one character: space becomes `+`,
safe characters stay, everything else is percent-escaped byte-wise. -/
def quotePlusChar (c : Char) : List Char :=
  if c = ' ' then ['+']
  else if alwaysSafe c then [c]
  else (utf8Bytes c.toNat).flatMap percentByte

/-- `urllib.parse.quote_plus(s, safe="")`, the `quote_via` used by `urlencode`. -/
def quotePlus (s : Str) : Str := s.flatMap quotePlusChar

/-- Percent-decoding scan of `urllib.parse.unquote`, at byte level: a valid
`%XX` escape yields the character of that byte (faithful to CPython for
ASCII escapes; theorems only use the ASCII range). -/
def unquoteCore : Str → Str
  | [] => []
  | '%' :: c1 :: c2 :: rest =>
    if isHexDigit c1 && isHexDigit c2 then
      Char.ofNat (16 * hexVal c1 + hexVal c2) :: unquoteCore rest
    else '%' :: unquoteCore (c1 :: c2 :: rest)
  | c :: rest => c :: unquoteCore rest

/-- The `+` to space replacement of `unquote_plus`. -/
def plusToSpace (c : Char) : Char := if c = '+' then ' ' else c

/-- `urllib.parse.unquote_plus`. -/
def unquotePlus (s : Str) : Str := unquoteCore (s.map plusToSpace)

/-- One `name=value` pair of `parse_qsl(qs, keep_blank_values=False)`:
pairs without `=` or with an empty raw value are dropped. -/
def parseQslPair (nv : Str) : Option (Str × Str) :=
  if nv.isEmpty then none
  else
    match splitOnce '=' nv with
    | none => none
    | some (n, v) => if v.isEmpty then none else some (unquotePlus n, unquotePlus v)

/-- `urllib.parse.parse_qsl(qs, keep_blank_values=False)` (default `&` separator). -/
def parseQsl (qs : Str) : List (Str × Str) :=
  (qs.splitOn '&').filterMap parseQslPair

/-- `urllib.parse.urlencode(pairs)` with its default `quote_plus` quoting. -/
def urlencode (pairs : List (Str × Str)) : Str :=
  List.intercalate ['&'] (pairs.map (fun p => quotePlus p.1 ++ '=' :: quotePlus p.2))

/-- Result of `urllib.parse.urlsplit`. -/
structure SplitResult where
  scheme : Str
  netloc : Str
  path : Str
  query : Str
  fragment : Str
  deriving DecidableEq, Repr

/-- Characters allowed in a URL scheme (`urllib.parse.scheme_chars`). -/
def isSchemeChar (c : Char) : Bool :=
  ('a' ≤ c && c ≤ 'z') || ('A' ≤ c && c ≤ 'Z') || ('0' ≤ c && c ≤ '9') ||
    c = '+' || c = '-' || c = '.'

/-- ASCII letter test (`url[0].isascii() and url[0].isalpha()`). -/
def isAsciiAlpha (c : Char) : Bool := ('a' ≤ c && c ≤ 'z') || ('A' ≤ c && c ≤ 'Z')

/-- The WHATWG pre-cleaning of CPython `urlsplit`: strip leading
C0-control-or-space characters (CPython deliberately keeps trailing ones),
then remove every tab, CR and LF. -/
def urlPreClean (s : Str) : Str :=
  (s.dropWhile (fun c => c.toNat ≤ 32)).filter
    (fun c => !(c = '\t' || c = '\n' || c = '\r'))

/-- Characters terminating the authority component (`_splitnetloc`). -/
def isNetlocEnd (c : Char) : Bool := c = '/' || c = '?' || c = '#'

/-- CPython (3.11) `urllib.parse.urlsplit`; `none` models the `ValueError`
raised for an authority with unbalanced IPv6 brackets. Two checks that only
concern IPv6-literal or non-ASCII authorities (`_check_bracketed_host`,
`_checknetloc`) are not modelled; no theorem below involves such inputs. -/
def pyUrlsplit (url0 : Str) : Option SplitResult :=
  let url1 := urlPreClean url0
  let sr : Str × Str :=
    match splitOnce ':' url1 with
    | none => (([] : Str), url1)
    | some (before, after) =>
      if !before.isEmpty && isAsciiAlpha (before.headD ' ') && before.all isSchemeChar then
        (pyLower before, after)
      else (([] : Str), url1)
  let scheme := sr.1
  let rest := sr.2
  let nl : Str × Str :=
    if ['/', '/'].isPrefixOf rest then
      ((rest.drop 2).takeWhile (fun c => !isNetlocEnd c),
       (rest.drop 2).dropWhile (fun c => !isNetlocEnd c))
    else (([] : Str), rest)
  let netloc := nl.1
  if (netloc.contains '[' && !netloc.contains ']') ||
      (netloc.contains ']' && !netloc.contains '[') then none
  else
    let fr : Str × Str :=
      match splitOnce '#' nl.2 with
      | none => (nl.2, ([] : Str))
      | some (a, b) => (a, b)
    let pq : Str × Str :=
      match splitOnce '?' fr.1 with
      | none => (fr.1, ([] : Str))
      | some (a, b) => (a, b)
    some ⟨scheme, netloc, pq.1, pq.2, fr.2⟩

/-- Result of `urllib.parse.urlparse` (adds the `params` component). -/
structure ParseResult where
  scheme : Str
  netloc : Str
  path : Str
  params : Str
  query : Str
  fragment : Str
  deriving DecidableEq, Repr

/-- `urllib.parse.uses_params`. -/
def usesParams : List Str :=
  ["", "ftp", "hdl", "prospero", "http", "imap", "https", "shttp", "rtsp",
    "rtspu", "sip", "sips", "mms", "sftp", "tel"].map String.data

/-- CPython `urllib.parse._splitparams`. -/
def splitParams (url : Str) : Str × Str :=
  if url.contains '/' then
    match rsplitOnce '/' url with
    | none => (url, [])
    | some (before, after) =>
      match splitOnce ';' after with
      | none => (url, [])
      | some (a, b) => (before ++ '/' :: a, b)
  else
    match splitOnce ';' url with
    | none => (url, [])
    | some (a, b) => (a, b)

/-- `urllib.parse.urlparse` (via `urlsplit`, then the params split). -/
def pyUrlparse (url : Str) : Option ParseResult :=
  match pyUrlsplit url with
  | none => none
  | some r =>
    if usesParams.contains r.scheme && r.path.contains ';' then
      let pp := splitParams r.path
      some ⟨r.scheme, r.netloc, pp.1, pp.2, r.query, r.fragment⟩
    else some ⟨r.scheme, r.netloc, r.path, [], r.query, r.fragment⟩

/-- The `hostname` property of a parse result: part of the authority after
userinfo, before any port, lowercased; `none` when empty. -/
def hostnameOf (netloc : Str) : Option Str :=
  let hostinfo := afterLast '@' netloc
  let hostname :=
    match splitOnce '[' hostinfo with
    | some (_, bracketed) => takeUntil ']' bracketed
    | none => takeUntil ':' hostinfo
  if hostname.isEmpty then none else some (pyLower hostname)

/-- `urllib.parse.urlunsplit`. -/
def pyUrlunsplit (scheme netloc path query fragment : Str) : Str :=
  let url1 :=
    if !netloc.isEmpty || ['/', '/'].isPrefixOf path then
      let p := if !path.isEmpty && path.headD ' ' ≠ '/' then '/' :: path else path
      '/' :: '/' :: (netloc ++ p)
    else path
  let url2 := if !scheme.isEmpty then scheme ++ ':' :: url1 else url1
  let url3 := if !query.isEmpty then url2 ++ '?' :: query else url2
  if !fragment.isEmpty then url3 ++ '#' :: fragment else url3

/-- `urllib.parse.urlunparse`. -/
def pyUrlunparse (r : ParseResult) : Str :=
  let p := if !r.params.isEmpty then r.path ++ ';' :: r.params else r.path
  pyUrlunsplit r.scheme r.netloc p r.query r.fragment

/-- The five UTM keys of `_UTM_FIELDS` in `app/utils/enrich.py`. -/
inductive UtmKey
  | source
  | medium
  | campaign
  | term
  | content
  deriving DecidableEq, Repr

/-- A UTM value dictionary keyed by the short names (`None` = absent). -/
structure Utm where
  source : Option Str
  medium : Option Str
  campaign : Option Str
  term : Option Str
  content : Option Str
  deriving DecidableEq, Repr

/-- Dictionary lookup on a `Utm`. -/
def Utm.get (u : Utm) : UtmKey → Option Str
  | .source => u.source
  | .medium => u.medium
  | .campaign => u.campaign
  | .term => u.term
  | .content => u.content

/-- Dictionary update on a `Utm`. -/
def Utm.set (u : Utm) : UtmKey → Option Str → Utm
  | .source, v => { u with source := v }
  | .medium, v => { u with medium := v }
  | .campaign, v => { u with campaign := v }
  | .term, v => { u with term := v }
  | .content, v => { u with content := v }

/-- `_blank_utm`. -/
def blankUtm : Utm := ⟨none, none, none, none, none⟩

/-- The key-matching loop of `_extract_utm_from_query`: a lowercased query key
equal to one of the five full `utm_*` names selects that field. -/
def matchUtmKey (k : Str) : Option UtmKey :=
  let l := pyLower k
  if l = "utm_source".data then some .source
  else if l = "utm_medium".data then some .medium
  else if l = "utm_campaign".data then some .campaign
  else if l = "utm_term".data then some .term
  else if l = "utm_content".data then some .content
  else none

/-- `_extract_utm_from_query`: fold the parsed query pairs into a UTM
dictionary (later pairs overwrite earlier ones, as in the Python dict). -/
def extractUtm (query : Str) : Utm :=
  (parseQsl query).foldl
    (fun acc kv =>
      match matchUtmKey kv.1 with
      | some key => acc.set key (some kv.2)
      | none => acc)
    blankUtm

/-- `_extract_host` from `app/utils/enrich.py`. -/
def extractHost (refHeader : Option Str) : Option Str :=
  match refHeader with
  | none => none
  | some r0 =>
    if r0.isEmpty then none
    else
      let ref := pyStrip r0
      if ref.isEmpty then none
      else
        let hostA : Option Str :=
          match pyUrlparse ref with
          | some p =>
            let h1 : Option Str :=
              match hostnameOf p.netloc with
              | some h => some h
              | none => if p.netloc.isEmpty then none else some p.netloc
            if !optTruthy h1 && !p.path.isEmpty && !containsSub ['/', '/'] p.path then
              some (takeUntil '/' p.path)
            else h1
          | none => none
        let hostB : Option Str :=
          if !optTruthy hostA && !containsSub [':', '/', '/'] ref then
            some (takeUntil '#' (takeUntil '?' (takeUntil '/' ref)))
          else hostA
        match hostB with
        | some h =>
          if !h.isEmpty then
            let c := pyLower (pyStrip h)
            if c.isEmpty then none else some c
          else hostB
        | none => none

/-- The `host` plus `utm` record produced by `parse_ref` / `decode_ref`. -/
structure RefInfo where
  host : Option Str
  utm : Utm
  deriving DecidableEq, Repr

/-- One key of the referrer-filling loop of `parse_ref`:
`if not utm.get(key): utm[key] = value` for keys present in the referrer
extraction. -/
def fillKey (cur new : Option Str) : Option Str :=
  match new with
  | some v => if optTruthy cur then cur else some v
  | none => cur

/-- The referrer-filling loop of `parse_ref` over all five keys. -/
def fillMissing (utm fromRef : Utm) : Utm :=
  ⟨fillKey utm.source fromRef.source, fillKey utm.medium fromRef.medium,
   fillKey utm.campaign fromRef.campaign, fillKey utm.term fromRef.term,
   fillKey utm.content fromRef.content⟩

/-- The referrer query string read by `parse_ref`: `urlparse(ref_header).query`
with `ValueError` mapped to `""`. -/
def refQueryOf (refHeader : Option Str) : Str :=
  match refHeader with
  | some r =>
    match pyUrlparse r with
    | some p => p.query
    | none => []
  | none => []

/-- `parse_ref` from `app/utils/enrich.py`. -/
def parseRef (refHeader : Option Str) (urlQuery : Str) : RefInfo :=
  let host := extractHost refHeader
  let utm1 := extractUtm urlQuery
  if optTruthy refHeader then
    ⟨host, fillMissing utm1 (extractUtm (refQueryOf refHeader))⟩
  else ⟨host, utm1⟩

/-- One field of the `[(full, utm.get(short)) ... if utm.get(short)]`
comprehension of `serialize_ref`: kept only when the value is truthy. -/
def optPart (k : Str) (o : Option Str) : List (Str × Str) :=
  match o with
  | some v => if v.isEmpty then [] else [(k, v)]
  | none => []

/-- The comprehension of `serialize_ref` over all five `_UTM_FIELDS`. -/
def utmPairs (utm : Utm) : List (Str × Str) :=
  optPart "utm_source".data utm.source ++ optPart "utm_medium".data utm.medium
    ++ optPart "utm_campaign".data utm.campaign
    ++ optPart "utm_term".data utm.term
    ++ optPart "utm_content".data utm.content

/-- `serialize_ref` from `app/utils/enrich.py`. -/
def serializeRef (host : Option Str) (utm : Utm) (fallback : Option Str) : Option Str :=
  let parts := utmPairs utm
  let query : Str := if parts.isEmpty then [] else urlencode parts
  let cleanedHost : Option Str :=
    if optTruthy host then some (pyLower (pyStrip (host.getD []))) else none
  if optTruthy cleanedHost && !query.isEmpty then
    some ((cleanedHost.getD []) ++ '?' :: query)
  else if optTruthy cleanedHost then cleanedHost
  else if !query.isEmpty then some ('?' :: query)
  else
    match fallback with
    | some f =>
      let fc := pyStrip f
      if fc.isEmpty then none else some fc
    | none => none

/-- `decode_ref` from `app/utils/enrich.py`; the outer `none` models the
`ValueError` that the bare `urlparse` call would propagate. -/
def decodeRef (value : Option Str) : Option RefInfo :=
  match value with
  | none => some ⟨none, blankUtm⟩
  | some v0 =>
    if v0.isEmpty then some ⟨none, blankUtm⟩
    else
      let raw := pyStrip v0
      if raw.isEmpty then some ⟨none, blankUtm⟩
      else
        let hostQuery : Option (Option Str × Str) :=
          if containsSub [':', '/', '/'] raw then
            match pyUrlparse raw with
            | none => none
            | some p =>
              let h : Option Str :=
                match hostnameOf p.netloc with
                | some h => some h
                | none => if p.netloc.isEmpty then none else some p.netloc
              some (h, p.query)
          else if raw.headD ' ' = '?' then some (none, raw.drop 1)
          else
            match splitOnce '?' raw with
            | some (hp, q) => some ((if hp.isEmpty then none else some hp), q)
            | none => some (some raw, [])
        match hostQuery with
        | none => none
        | some (h0, query) =>
          let host : Option Str :=
            match h0 with
            | some h => if h.isEmpty then none else some (pyLower (pyStrip h))
            | none => none
          some ⟨host, extractUtm query⟩

/-- Order-preserving de-duplication, Python `dict.fromkeys` (first wins). -/
def dedupFirst (l : List Str) : List Str :=
  l.foldl (fun acc x => if acc.contains x then acc else acc ++ [x]) []

/-- `_normalize_allowed_schemes` from `app/utils/validators.py`. -/
def normalizeAllowedSchemes (allowed : List Str) : List Str :=
  let normalized :=
    (allowed.filter (fun s => !s.isEmpty && !(pyStrip s).isEmpty)).map
      (fun s => pyLower (pyStrip s))
  if normalized.isEmpty then ["https".data, "http".data] else dedupFirst normalized

/-- `_default_scheme` from `app/utils/validators.py`. -/
def defaultScheme (allowed : List Str) : Str :=
  match allowed with
  | [] => "https".data
  | a :: _ => a

/-- `validate_target_url` from `app/utils/validators.py`; `Except.error ()`
models a raised `ValueError` (the function only raises that type, including
the bracket `ValueError` out of the second, unguarded `urlparse` call). -/
def validateTargetUrl (url : Option Str) (allowed : List Str) : Except Unit Str :=
  match url with
  | none => .error ()
  | some u =>
    let value := pyStrip u
    if value.isEmpty then .error ()
    else
      let allowedS := normalizeAllowedSchemes allowed
      match pyUrlparse value with
      | none => .error ()
      | some parsed =>
        let scheme := pyLower parsed.scheme
        if !scheme.isEmpty && !allowedS.contains scheme then .error ()
        else
          let step : Except Unit (ParseResult × Str) :=
            if scheme.isEmpty then
              let ds := defaultScheme allowedS
              match pyUrlparse (ds ++ [':', '/', '/'] ++ value) with
              | none => .error ()
              | some ep => .ok (ep, ds)
            else .ok (parsed, scheme)
          match step with
          | .error e => .error e
          | .ok (ep, scheme2) =>
            if !allowedS.contains scheme2 then .error ()
            else
              let netloc := pyStrip ep.netloc
              if netloc.isEmpty then .error ()
              else
                .ok (pyUrlunparse
                  { ep with
                    scheme := scheme2
                    netloc := pyLower netloc
                    path := if ep.path.isEmpty then ['/'] else ep.path })

/-- `_get_allowed_target_schemes` from `app/routes_redirect.py`; `envRaw` is
the `ALLOWED_TARGET_SCHEMES` environment value (`none` = unset). -/
def getAllowedTargetSchemes (envRaw : Option Str) : List Str :=
  let raw : Str :=
    match envRaw with
    | some s => if s.isEmpty then "https,http".data else s
    | none => "https,http".data
  let cleaned :=
    dedupFirst (((raw.splitOn ',').filter (fun i => !(pyStrip i).isEmpty)).map
      (fun i => pyLower (pyStrip i)))
  if cleaned.isEmpty then ["https".data, "http".data] else cleaned

/-- The per-IP `TokenBucket` of `app/routes_redirect.py`; Python floats are
modelled as exact rationals, monotonic clock readings are rational inputs. -/
structure TokenBucket where
  capacity : Int
  refill_seconds : Int
  tokens : Rat
  last_refill : Rat
  deriving DecidableEq, Repr

/-- The refill phase of `TokenBucket.try_consume` (lines 61-67 of
`routes_redirect.py`): refill proportionally to elapsed time, but only when
`refill_seconds > 0 and elapsed > 0`. -/
def TokenBucket.refillAt (b : TokenBucket) (now : Rat) : TokenBucket :=
  if 0 < b.refill_seconds ∧ 0 < now - b.last_refill then
    { b with
      tokens := min (b.capacity : Rat)
        (b.tokens + ((b.capacity : Rat) / (b.refill_seconds : Rat)) * (now - b.last_refill))
      last_refill := now }
  else b

/-- `TokenBucket.try_consume`: refill, then consume `amount` if available.
Returns the allow/deny flag and the updated bucket. -/
def TokenBucket.try_consume (b : TokenBucket) (now : Rat) (amount : Rat) :
    Bool × TokenBucket :=
  if amount ≤ (b.refillAt now).tokens then
    (true, { b.refillAt now with tokens := (b.refillAt now).tokens - amount })
  else (false, b.refillAt now)

/-- `N` successive `try_consume(1.0)` calls at a fixed clock reading. -/
def TokenBucket.consumeN (b : TokenBucket) (now : Rat) : Nat → TokenBucket
  | 0 => b
  | n + 1 => ((b.try_consume now 1).2).consumeN now n

/-- A `Route` row as read by the redirect handler. -/
structure RouteRow where
  id : Nat
  target_url : Str
  deriving DecidableEq, Repr

/-- A `RouteHit` row as inserted by the redirect handler
(`ts` is a server-side default, not set by the handler). -/
structure HitRow where
  route_id : Nat
  ip : Option Str
  ua : Option Str
  ref : Option Str
  deriving DecidableEq, Repr

/-- Outcome of `redirect_slug`, with its HTTP status and error-code payloads. -/
inductive RedirectResult
  | rateLimited
  | notFound
  | invalidUrl (detail : Str)
  | redirected (location : Str)
  deriving DecidableEq, Repr

/-- HTTP status code of each `redirect_slug` outcome (429 / 404 / 422 / 302). -/
def RedirectResult.statusCode : RedirectResult → Nat
  | .rateLimited => 429
  | .notFound => 404
  | .invalidUrl _ => 422
  | .redirected _ => 302

/-- JSON `error` code of each non-redirect outcome. -/
def RedirectResult.errorCode : RedirectResult → Option Str
  | .rateLimited => some "rate_limited".data
  | .notFound => some "not_found".data
  | .invalidUrl _ => some "invalid_url".data
  | .redirected _ => none

/-- The request data read by `redirect_slug` and `extract_client_ip`. -/
structure RedirectRequest where
  xff : Option Str
  clientHost : Option Str
  userAgent : Option Str
  referer : Option Str
  referrerAlt : Option Str
  urlQuery : Str

/-- `extract_client_ip` from `app/routes_redirect.py`. -/
def extractClientIp (req : RedirectRequest) : Option Str :=
  if optTruthy req.xff then
    let parts :=
      (((req.xff.getD []).splitOn ',').map pyStrip).filter (fun p => !p.isEmpty)
    match parts with
    | p :: _ => some p
    | [] => req.clientHost
  else req.clientHost

/-- The 422 detail string built by `redirect_slug`. -/
def invalidDetail (allowed : List Str) : Str :=
  "Target URL scheme must be one of: ".data ++ List.intercalate (", ".data) allowed

/-- Observable outcome of one `redirect_slug` request: the HTTP response,
the list of `RouteHit` rows inserted and committed, and the updated bucket. -/
structure RedirectOutcome where
  response : RedirectResult
  hits : List HitRow
  bucket : TokenBucket
  deriving Repr

/-- The `RouteHit` row built by `redirect_slug` (lines 108-114): client IP,
user agent, and the serialized referrer derived via `parse_ref` /
`serialize_ref` from the `referer`/`referrer` headers and the request query. -/
def mkHit (req : RedirectRequest) (route : RouteRow) : HitRow :=
  ⟨route.id, extractClientIp req, req.userAgent,
    serializeRef (parseRef (pyOr req.referer req.referrerAlt) req.urlQuery).host
      (parseRef (pyOr req.referer req.referrerAlt) req.urlQuery).utm
      (pyOr req.referer req.referrerAlt)⟩

/-- `redirect_slug` from `app/routes_redirect.py`. `bucket` is the per-IP
bucket the handler obtained for this client, `now` the monotonic clock;
`db = none` models `try_get_session` returning no session (storage
unavailable), otherwise `db` is the slug lookup; `envSchemes` is the
`ALLOWED_TARGET_SCHEMES` environment value. The hit row is inserted and
committed before the target URL is validated. -/
def redirectSlug (slug : Str) (req : RedirectRequest) (bucket : TokenBucket)
    (now : Rat) (db : Option (Str → Option RouteRow)) (envSchemes : Option Str) :
    RedirectOutcome :=
  if !(bucket.try_consume now 1).1 then
    ⟨.rateLimited, [], (bucket.try_consume now 1).2⟩
  else
    match db with
    | none => ⟨.notFound, [], (bucket.try_consume now 1).2⟩
    | some lookup =>
      match lookup slug with
      | none => ⟨.notFound, [], (bucket.try_consume now 1).2⟩
      | some route =>
        match validateTargetUrl (some route.target_url)
            (getAllowedTargetSchemes envSchemes) with
        | .error _ =>
          ⟨.invalidUrl (invalidDetail (getAllowedTargetSchemes envSchemes)),
            [mkHit req route], (bucket.try_consume now 1).2⟩
        | .ok normalized =>
          ⟨.redirected normalized, [mkHit req route], (bucket.try_consume now 1).2⟩

/-- Task states of `app/worker/queue.py` (`queued | running | done | error`). -/
inductive TaskStatus
  | queued
  | running
  | done
  | error
  deriving DecidableEq, Repr

/-- `TaskRecord` from `app/worker/queue.py`. -/
structure TaskRecord where
  id : Str
  kind : Str
  created_at : Rat
  started_at : Option Rat
  finished_at : Option Rat
  status : TaskStatus
  error : Option Str
  deriving DecidableEq, Repr

/-- Python-dict assignment `m[k] = v` on an association list: replace in
place if the key is present, append otherwise. -/
def dictSet {κ ν : Type} [BEq κ] (m : List (κ × ν)) (k : κ) (v : ν) :
    List (κ × ν) :=
  if (m.find? (fun p => p.1 == k)).isSome then
    m.map (fun p => if p.1 == k then (k, v) else p)
  else m ++ [(k, v)]

/-- Python-dict lookup `m.get(k)` on an association list. -/
def dictGet {κ ν : Type} [BEq κ] (m : List (κ × ν)) (k : κ) : Option ν :=
  (m.find? (fun p => p.1 == k)).map (fun p => p.2)

/-- Python-dict update on the `_tasks` map. -/
def updateTask (m : List (Str × TaskRecord)) (k : Str) (v : TaskRecord) :
    List (Str × TaskRecord) :=
  dictSet m k v

/-- `self._tasks.get(task_id)`. -/
def lookupTask (m : List (Str × TaskRecord)) (k : Str) : Option TaskRecord :=
  dictGet m k

/-- State of `InProcessQueue`, parametrised by the job payload type `α`
(the `(func, arg)` closure handed to `submit`). -/
structure QueueState (α : Type) where
  queue : List (Str × α)
  tasks : List (Str × TaskRecord)
  max_queue_size : Nat

/-- `InProcessQueue.submit`: reject when the queue is at capacity, otherwise
record a fresh `queued` `TaskRecord` and enqueue the job. -/
def QueueState.submit (s : QueueState α) (now : Rat) (task_id kind : Str)
    (job : α) : Bool × QueueState α :=
  if s.max_queue_size ≤ s.queue.length then (false, s)
  else
    (true,
      { s with
        tasks := updateTask s.tasks task_id
          ⟨task_id, kind, now, none, none, .queued, none⟩
        queue := s.queue ++ [(task_id, job)] })

/-- `InProcessQueue.status`. -/
def QueueState.statusOf (s : QueueState α) (task_id : Str) : Option TaskRecord :=
  lookupTask s.tasks task_id

/-- The `record.status = "running"; record.started_at = time.time()` step of
`_consumer`, executed before the job function is invoked. -/
def markRunning (r : TaskRecord) (t : Rat) : TaskRecord :=
  { r with status := .running, started_at := some t }

/-- The post-invocation step of `_consumer`: `done` on normal return, `error`
with the exception message on failure, with `finished_at` set either way. -/
def finishRecord (r : TaskRecord) (outcome : Except Str Unit) (t : Rat) :
    TaskRecord :=
  match outcome with
  | .ok _ => { r with status := .done, finished_at := some t }
  | .error msg => { r with status := .error, error := some msg, finished_at := some t }

/-- One iteration of the `_consumer` loop: dequeue, skip if no record exists,
otherwise mark running (at `t1`), invoke the job (`exec`, whose `Except`
result models normal return vs a raised exception) and finish (at `t2`). -/
def consumerStep (exec : α → Except Str Unit) (s : QueueState α) (t1 t2 : Rat) :
    QueueState α :=
  match s.queue with
  | [] => s
  | (task_id, job) :: rest =>
    match lookupTask s.tasks task_id with
    | none => { s with queue := rest }
    | some record =>
      { s with
        queue := rest
        tasks := updateTask s.tasks task_id
          (finishRecord (markRunning record t1) (exec job) t2) }

/-- `fuel` iterations of the `_consumer` loop (`clock n` supplies the pair of
`time.time()` readings of iteration `n`). -/
def consumerRun (exec : α → Except Str Unit) (clock : Nat → Rat × Rat) :
    Nat → QueueState α → QueueState α
  | 0, s => s
  | n + 1, s => consumerRun exec clock n (consumerStep exec s (clock n).1 (clock n).2)

/-- Observable trace of `_run_job` in `app/hooks/dispatcher.py`. -/
structure RunJobResult where
  attempts : Nat
  sleeps : List Rat
  delivered : Bool
  marked_failed : Bool
  deriving DecidableEq, Repr

/-- The storage collaborator of the `last_failed_at` persistence step:
whether `try_get_session` yields a session, whether `session.get` finds the
webhook row, and whether the commit succeeds (an exception anywhere in the
`try` block is rolled back and swallowed). -/
structure PersistEnv where
  session_available : Bool
  row_exists : Bool
  commit_ok : Bool
  deriving DecidableEq, Repr

/-- The `for attempt in range(max_retries)` loop of `_run_job`: each failed
attempt is followed by a `time.sleep(backoff * (2 ** attempt))`; a success
returns immediately. Yields (attempts made, sleep durations, delivered?). -/
def runJobLoop (deliver : Nat → Bool) (backoff : Rat) :
    Nat → Nat → Nat × List Rat × Bool
  | _, 0 => (0, [], false)
  | attempt, n + 1 =>
    if deliver attempt then (1, [], true)
    else
      let rest := runJobLoop deliver backoff (attempt + 1) n
      (rest.1 + 1, backoff * 2 ^ attempt :: rest.2.1, rest.2.2)

/-- `_run_job` from `app/hooks/dispatcher.py`: the retry loop, then on
exhaustion the best-effort `last_failed_at` persistence; the function is
total — persistence failure is swallowed, never raised. -/
def runJob (deliver : Nat → Bool) (env : PersistEnv) (max_retries : Nat)
    (backoff : Rat) : RunJobResult :=
  if (runJobLoop deliver backoff 0 max_retries).2.2 then
    ⟨(runJobLoop deliver backoff 0 max_retries).1,
      (runJobLoop deliver backoff 0 max_retries).2.1, true, false⟩
  else
    ⟨(runJobLoop deliver backoff 0 max_retries).1,
      (runJobLoop deliver backoff 0 max_retries).2.1, false,
      env.session_available && env.row_exists && env.commit_ok⟩

/-- `SlidingWindow` from `app/middleware/rate_limit.py`: a deque of monotonic
timestamps plus the window length. -/
structure SlidingWindow where
  window_seconds : Int
  events : List Rat
  deriving DecidableEq, Repr

/-- `SlidingWindow.__init__(window_seconds)`:
`max(int(window_seconds or 60), 1)` and an empty deque. -/
def mkSlidingWindow (w : Int) : SlidingWindow :=
  ⟨max (if w = 0 then 60 else w) 1, []⟩

/-- `SlidingWindow.add_and_prune`: append the current timestamp, pop stale
entries (strictly older than `now - window`) from the left, return the count. -/
def SlidingWindow.add_and_prune (s : SlidingWindow) (now : Rat) :
    Nat × SlidingWindow :=
  let evs := s.events ++ [now]
  let cutoff := now - (s.window_seconds : Rat)
  let evs2 := evs.dropWhile (fun t => t < cutoff)
  (evs2.length, { s with events := evs2 })

/-- State of `RateLimitMiddleware`: the `(IP, path-prefix)`-keyed window map
and the configured limit/window/tracked path list. -/
structure MwState where
  buckets : List ((Str × Str) × SlidingWindow)
  limit_per_window : Int
  window_seconds : Int
  prefixes : List Str

/-- `RateLimitMiddleware._match_prefix`. -/
def matchPfx (prefixes : List Str) (path : Str) : Option Str :=
  prefixes.find? (fun p => p.isPrefixOf path)

/-- Lookup in the `(IP, prefix)` window map. -/
def lookupWindow (m : List ((Str × Str) × SlidingWindow)) (k : Str × Str) :
    Option SlidingWindow :=
  dictGet m k

/-- Python-dict update on the window map. -/
def updateWindow (m : List ((Str × Str) × SlidingWindow)) (k : Str × Str)
    (v : SlidingWindow) : List ((Str × Str) × SlidingWindow) :=
  dictSet m k v

/-- `RateLimitMiddleware.dispatch` for one request: on a tracked prefix and
method, get-or-create the window, `add_and_prune`, and reject with 429 when
the count exceeds the limit. Returns (rejected-with-429?, new state). -/
def mwDispatch (st : MwState) (ip path method : Str) (now : Rat) :
    Bool × MwState :=
  match matchPfx st.prefixes path with
  | none => (false, st)
  | some pfx =>
    if method == "GET".data || method == "HEAD".data || method == "POST".data then
      let key := (ip, pfx)
      let bucket :=
        match lookupWindow st.buckets key with
        | some b => b
        | none => mkSlidingWindow st.window_seconds
      let res := bucket.add_and_prune now
      let st2 := { st with buckets := updateWindow st.buckets key res.2 }
      (st.limit_per_window < (res.1 : Int), st2)
    else (false, st)

/-!
Helper lemmas.
-/

lemma refillAt_of_elapsed_nonneg (b : TokenBucket) (now : Rat)
    (hW : 0 < b.refill_seconds) (hnow : b.last_refill ≤ now)
    (htok : b.tokens ≤ (b.capacity : Rat)) :
    b.refillAt now =
      { b with
        tokens := min (b.capacity : Rat)
          (b.tokens + ((b.capacity : Rat) / (b.refill_seconds : Rat)) * (now - b.last_refill))
        last_refill := now } := by
  unfold TokenBucket.refillAt
  split_ifs with h
  · rfl
  · have hnow2 : now = b.last_refill := by
      rcases (not_and_or.mp h) with h1 | h2
      · exact absurd hW h1
      · have : now - b.last_refill ≤ 0 := le_of_not_lt h2
        linarith
    subst hnow2
    have hmin : min (b.capacity : Rat)
        (b.tokens + ((b.capacity : Rat) / (b.refill_seconds : Rat))
          * (b.last_refill - b.last_refill))
        = b.tokens := by
      rw [sub_self, mul_zero, add_zero]
      exact min_eq_right htok
    rw [hmin]

lemma refillAt_tokens_le_cap (b : TokenBucket) (now : Rat)
    (h : b.tokens ≤ (b.capacity : Rat)) :
    (b.refillAt now).tokens ≤ (b.capacity : Rat) := by
  unfold TokenBucket.refillAt
  split_ifs with hc
  · exact min_le_left _ _
  · exact h

lemma refillAt_full_window (b : TokenBucket) (hW : 0 < b.refill_seconds)
    (h0 : 0 ≤ b.tokens) :
    (b.refillAt (b.last_refill + (b.refill_seconds : Rat))).tokens
      = (b.capacity : Rat) := by
  have hWq : (0 : Rat) < (b.refill_seconds : Rat) := by exact_mod_cast hW
  unfold TokenBucket.refillAt
  rw [if_pos ⟨hW, by linarith [hWq]⟩]
  show min (b.capacity : Rat)
      (b.tokens + ((b.capacity : Rat) / (b.refill_seconds : Rat))
        * (b.last_refill + (b.refill_seconds : Rat) - b.last_refill))
    = (b.capacity : Rat)
  have : b.last_refill + (b.refill_seconds : Rat) - b.last_refill
      = (b.refill_seconds : Rat) := by ring
  rw [this, div_mul_cancel₀ _ (ne_of_gt hWq)]
  exact min_eq_left (by linarith)

lemma consumeN_tokens_eq (W C : Int) (now : Rat) :
    ∀ (N k : Nat),
      (((TokenBucket.mk C W (k : Rat) now)).consumeN now N).tokens
        = ((max 0 ((k : Int) - (N : Int)) : Int) : Rat) := by
  intro N
  induction N with
  | zero =>
    intro k
    simp [TokenBucket.consumeN]
  | succ n ih =>
    intro k
    have hstep : ((TokenBucket.mk C W (k : Rat) now).try_consume now 1).2
        = TokenBucket.mk C W (if 1 ≤ k then (k : Rat) - 1 else (k : Rat)) now := by
      unfold TokenBucket.try_consume TokenBucket.refillAt
      simp
      split_ifs <;> rfl
    rw [TokenBucket.consumeN, hstep]
    by_cases hk : 1 ≤ k
    · have hcast : ((k : Rat) - 1) = ((k - 1 : Nat) : Rat) := by
        push_cast [hk]
        ring
      rw [if_pos hk, hcast, ih (k - 1)]
      congr 1
      omega
    · have hk0 : k = 0 := by omega
      subst hk0
      rw [if_neg hk, ih 0]
      congr 1
      omega

lemma find?_map_replace {κ ν : Type} [BEq κ] [LawfulBEq κ]
    (k : κ) (v : ν) :
    ∀ m : List (κ × ν),
      (m.map (fun p => if p.1 == k then (k, v) else p)).find? (fun p => p.1 == k)
        = (m.find? (fun p => p.1 == k)).map (fun _ => (k, v)) := by
  intro m
  induction m with
  | nil => rfl
  | cons hd tl ih =>
    by_cases hk : hd.1 == k
    · simp [List.find?, hk]
    · simp only [List.map_cons, List.find?]
      rw [if_neg hk]
      simp only [hk]
      exact ih

lemma find?_append_right {κ ν : Type} [BEq κ]
    (p : κ × ν → Bool) :
    ∀ (m : List (κ × ν)) (l : List (κ × ν)),
      m.find? p = none → (m ++ l).find? p = l.find? p := by
  intro m
  induction m with
  | nil => intro l _; rfl
  | cons hd tl ih =>
    intro l hm
    by_cases hp : p hd = true
    · rw [List.find?_cons_of_pos _ hp] at hm
      exact absurd hm (by simp)
    · rw [List.find?_cons_of_neg _ hp] at hm
      rw [List.cons_append, List.find?_cons_of_neg _ hp]
      exact ih l hm

lemma dictGet_dictSet_same {κ ν : Type} [BEq κ] [LawfulBEq κ]
    (m : List (κ × ν)) (k : κ) (v : ν) :
    dictGet (dictSet m k v) k = some v := by
  unfold dictSet dictGet
  split_ifs with hfind
  · rw [find?_map_replace k v m]
    rcases hm : m.find? (fun p => p.1 == k) with _ | p
    · rw [hm] at hfind; simp at hfind
    · rw [hm]; rfl
  · rw [find?_append_right _ m [(k, v)] (by
      rcases hm : m.find? (fun p => p.1 == k) with _ | p
      · exact hm
      · rw [hm] at hfind; simp at hfind)]
    simp [List.find?]

lemma consumerStep_queue_tail {α : Type} (exec : α → Except Str Unit)
    (s : QueueState α) (t1 t2 : Rat) :
    (consumerStep exec s t1 t2).queue = s.queue.tail := by
  unfold consumerStep
  rcases hq : s.queue with _ | ⟨⟨task_id, job⟩, rest⟩
  · simp [hq]
  · rcases hr : lookupTask s.tasks task_id with _ | rec <;> simp [hq, hr]

lemma consumerRun_drains {α : Type} (exec : α → Except Str Unit)
    (clock : Nat → Rat × Rat) :
    ∀ (n : Nat) (s : QueueState α), s.queue.length ≤ n →
      (consumerRun exec clock n s).queue = [] := by
  intro n
  induction n with
  | zero =>
    intro s h
    have : s.queue = [] := List.eq_nil_of_length_eq_zero (Nat.le_zero.mp h)
    simpa [consumerRun] using this
  | succ n ih =>
    intro s h
    rw [consumerRun]
    apply ih
    rw [consumerStep_queue_tail]
    rcases hq : s.queue with _ | ⟨hd, rest⟩
    · simp
    · rw [hq] at h
      simpa using Nat.le_of_succ_le_succ h

lemma dropWhile_append_single {α : Type} (p : α → Bool) (l : List α) (x : α)
    (hx : p x = false) :
    (l ++ [x]).dropWhile p ≠ [] ∧ x ∈ (l ++ [x]).dropWhile p := by
  induction l with
  | nil =>
    simp [List.dropWhile, hx]
  | cons a tl ih =>
    by_cases ha : p a = true
    · simpa [List.dropWhile, ha] using ih
    · have ha2 : p a = false := by
        rcases h : p a
        · rfl
        · exact absurd h ha
      refine ⟨by simp [List.dropWhile, ha2], ?_⟩
      simp [List.dropWhile, ha2]

lemma dropWhile_append_all {α : Type} (p : α → Bool) (l : List α) (x : α)
    (hl : ∀ a ∈ l, p a = true) (hx : p x = false) :
    (l ++ [x]).dropWhile p = [x] := by
  induction l with
  | nil => simp [List.dropWhile, hx]
  | cons a tl ih =>
    have ha := hl a (List.mem_cons_self a tl)
    simp only [List.cons_append, List.dropWhile, ha]
    exact ih (fun b hb => hl b (List.mem_cons_of_mem a hb))

lemma runJobLoop_all_fail (deliver : Nat → Bool) (backoff : Rat)
    (hf : ∀ i, deliver i = false) :
    ∀ (n a : Nat),
      runJobLoop deliver backoff a n
        = (n, (List.range n).map (fun i => backoff * 2 ^ (a + i)), false) := by
  intro n
  induction n with
  | zero => intro a; rfl
  | succ n ih =>
    intro a
    rw [runJobLoop, hf a]
    simp only [Bool.false_eq_true, if_false, ih (a + 1)]
    refine Prod.ext rfl (Prod.ext ?_ rfl)
    show backoff * 2 ^ a :: (List.range n).map (fun i => backoff * 2 ^ (a + 1 + i))
        = (List.range (n + 1)).map (fun i => backoff * 2 ^ (a + i))
    rw [List.range_succ_eq_map, List.map_cons, List.map_map]
    refine List.cons_eq_cons.mpr ⟨by rw [Nat.add_zero], ?_⟩
    apply List.map_congr_left
    intro i _
    show backoff * 2 ^ (a + 1 + i) = backoff * 2 ^ (a + Nat.succ i)
    rw [show a + 1 + i = a + Nat.succ i by omega]

lemma pyLower_isEmpty (s : Str) : (pyLower s).isEmpty = s.isEmpty := by
  cases s <;> rfl

lemma foldl_dedup_extends (xs : List Str) :
    ∀ acc : List Str, ∃ t,
      xs.foldl (fun acc x => if acc.contains x then acc else acc ++ [x]) acc
        = acc ++ t := by
  induction xs with
  | nil => intro acc; exact ⟨[], by simp⟩
  | cons x xs ih =>
    intro acc
    simp only [List.foldl_cons]
    by_cases h : acc.contains x = true
    · rw [if_pos h]
      exact ih acc
    · rw [if_neg h]
      obtain ⟨t, ht⟩ := ih (acc ++ [x])
      exact ⟨[x] ++ t, by rw [ht, List.append_assoc]⟩

lemma dedupFirst_cons (x : Str) (xs : List Str) :
    ∃ t, dedupFirst (x :: xs) = x :: t := by
  unfold dedupFirst
  simp only [List.foldl_cons, List.contains_nil, Bool.false_eq_true, if_false,
    List.nil_append]
  obtain ⟨t, ht⟩ := foldl_dedup_extends xs [x]
  exact ⟨t, by rw [ht]; rfl⟩

lemma defaultScheme_facts (allowed : List Str) :
    (normalizeAllowedSchemes allowed).contains
      (defaultScheme (normalizeAllowedSchemes allowed)) = true
    ∧ (defaultScheme (normalizeAllowedSchemes allowed)).isEmpty = false := by
  unfold normalizeAllowedSchemes
  by_cases he : ((allowed.filter
      (fun s => !s.isEmpty && !(pyStrip s).isEmpty)).map
        (fun s => pyLower (pyStrip s))).isEmpty = true
  · rw [if_pos he]
    exact ⟨by decide, by decide⟩
  · rw [if_neg he]
    rcases hfe : allowed.filter (fun s => !s.isEmpty && !(pyStrip s).isEmpty)
      with _ | ⟨s, rest⟩
    · rw [hfe] at he
      exact absurd rfl he
    · have hq : (!s.isEmpty && !(pyStrip s).isEmpty) = true := by
        have hmem : s ∈ allowed.filter (fun s => !s.isEmpty && !(pyStrip s).isEmpty) := by
          rw [hfe]
          exact List.mem_cons_self s rest
        exact (List.mem_filter.mp hmem).2
      have hs : (pyStrip s).isEmpty = false := by
        rw [Bool.and_eq_true] at hq
        rcases hh : (pyStrip s).isEmpty
        · rfl
        · rw [hh] at hq
          exact absurd hq.2 (by simp)
      rw [hfe, List.map_cons]
      obtain ⟨t, ht⟩ := dedupFirst_cons (pyLower (pyStrip s))
        (rest.map (fun s => pyLower (pyStrip s)))
      rw [ht]
      constructor
      · simp [defaultScheme, List.contains_cons]
      · show (pyLower (pyStrip s)).isEmpty = false
        rw [pyLower_isEmpty]
        exact hs

lemma urlunsplit_authority_prefix (ds netloc path query fragment : Str)
    (hn : netloc.isEmpty = false) (hd : ds.isEmpty = false) :
    ds ++ [':', '/', '/'] <+: pyUrlunsplit ds netloc path query fragment := by
  unfold pyUrlunsplit
  simp only [hn, hd, Bool.not_false, Bool.true_or, if_true]
  split_ifs <;>
    first
      | exact (List.prefix_append_right_inj ds).mpr ⟨_, rfl⟩
      | exact ((List.prefix_append_right_inj ds).mpr ⟨_, rfl⟩).trans
          (List.prefix_append _ _)
      | exact (((List.prefix_append_right_inj ds).mpr ⟨_, rfl⟩).trans
          (List.prefix_append _ _)).trans (List.prefix_append _ _)

lemma unquoteCore_ne_nil : ∀ l : Str, l ≠ [] → unquoteCore l ≠ [] := by
  intro l hl
  unfold unquoteCore
  split
  · exact absurd rfl hl
  · split <;> simp
  · simp

lemma unquotePlus_ne_nil (l : Str) (hl : l ≠ []) : unquotePlus l ≠ [] := by
  unfold unquotePlus
  apply unquoteCore_ne_nil
  intro hc
  exact hl (List.map_eq_nil_iff.mp hc)

lemma parseQsl_snd_ne_nil (qs : Str) :
    ∀ p ∈ parseQsl qs, p.2 ≠ [] := by
  intro p hp
  unfold parseQsl at hp
  obtain ⟨nv, -, hnv⟩ := List.mem_filterMap.mp hp
  unfold parseQslPair at hnv
  split_ifs at hnv
  rcases hsp : splitOnce '=' nv with _ | ⟨n, v⟩ <;> rw [hsp] at hnv
  · exact absurd hnv (by simp)
  · dsimp only at hnv
    split_ifs at hnv with hv
    injection hnv with hnv
    subst hnv
    show unquotePlus v ≠ []
    apply unquotePlus_ne_nil
    intro hc
    rw [hc] at hv
    exact hv rfl

lemma Utm.get_set (u : Utm) (key k : UtmKey) (v : Option Str) :
    (u.set key v).get k = if k = key then v else u.get k := by
  cases key <;> cases k <;> simp [Utm.get, Utm.set]

lemma foldl_utm_ne_nil (ps : List (Str × Str)) :
    ∀ acc : Utm, (∀ p ∈ ps, p.2 ≠ []) → (∀ k, acc.get k ≠ some []) →
      ∀ k, (ps.foldl (fun acc kv =>
          match matchUtmKey kv.1 with
          | some key => acc.set key (some kv.2)
          | none => acc) acc).get k ≠ some [] := by
  induction ps with
  | nil =>
    intro acc _ hacc k
    exact hacc k
  | cons p ps ih =>
    intro acc hps hacc k
    simp only [List.foldl_cons]
    apply ih
    · intro p2 hp2
      exact hps p2 (List.mem_cons_of_mem _ hp2)
    · intro k2
      rcases hm : matchUtmKey p.1 with _ | key
      · simp only [hm]
        exact hacc k2
      · simp only [hm, Utm.get_set]
        split_ifs
        · intro hc
          injection hc with hc
          exact hps p (List.mem_cons_self _ _) hc
        · exact hacc k2

lemma extractUtm_get_ne_nil (q : Str) (k : UtmKey) :
    (extractUtm q).get k ≠ some [] := by
  unfold extractUtm
  apply foldl_utm_ne_nil
  · exact parseQsl_snd_ne_nil q
  · intro k2
    cases k2 <;> simp [blankUtm, Utm.get]

lemma fillMissing_get (a b : Utm) (k : UtmKey) :
    (fillMissing a b).get k = fillKey (a.get k) (b.get k) := by
  cases k <;> rfl

lemma char_toNat_ofNat {n : Nat} (h : n < 55296) : (Char.ofNat n).toNat = n := by
  rw [Char.ofNat, dif_pos (Or.inl h)]
  rfl

lemma hexDigitUpper_facts :
    ∀ m : Nat, m < 16 →
      isHexDigit (hexDigitUpper m) = true
      ∧ hexVal (hexDigitUpper m) = m
      ∧ alwaysSafe (hexDigitUpper m) = true := by
  decide

lemma unquoteCore_cons_ne (c : Char) (rest : Str) (hc : ¬ c = '%') :
    unquoteCore (c :: rest) = c :: unquoteCore rest :=
  unquoteCore.eq_3 c rest (fun _ _ _ h1 _ => hc h1)

lemma unquoteCore_percent (c1 c2 : Char) (rest : Str)
    (hhex : (isHexDigit c1 && isHexDigit c2) = true) :
    unquoteCore ('%' :: c1 :: c2 :: rest)
      = Char.ofNat (16 * hexVal c1 + hexVal c2) :: unquoteCore rest := by
  show (if (isHexDigit c1 && isHexDigit c2) = true then
      Char.ofNat (16 * hexVal c1 + hexVal c2) :: unquoteCore rest
    else '%' :: unquoteCore (c1 :: c2 :: rest))
    = Char.ofNat (16 * hexVal c1 + hexVal c2) :: unquoteCore rest
  rw [if_pos hhex]

lemma alwaysSafe_facts :
    alwaysSafe '+' = false ∧ alwaysSafe '%' = false ∧ alwaysSafe ' ' = false := by
  decide

lemma quotePlusChar_step (c : Char) (hc : c.toNat < 128) (T : Str) :
    unquoteCore (((quotePlusChar c).map plusToSpace) ++ T) = c :: unquoteCore T := by
  unfold quotePlusChar
  by_cases hsp : c = ' '
  · rw [if_pos hsp]
    show unquoteCore (plusToSpace '+' :: T) = c :: unquoteCore T
    have : plusToSpace '+' = ' ' := rfl
    rw [this, hsp, unquoteCore_cons_ne ' ' T (by decide)]
  · rw [if_neg hsp]
    by_cases hsafe : alwaysSafe c = true
    · rw [if_pos hsafe]
      have hplus : ¬ c = '+' := by
        intro hcc
        rw [hcc] at hsafe
        rw [alwaysSafe_facts.1] at hsafe
        exact absurd hsafe (by simp)
      have hpct : ¬ c = '%' := by
        intro hcc
        rw [hcc] at hsafe
        rw [alwaysSafe_facts.2.1] at hsafe
        exact absurd hsafe (by simp)
      show unquoteCore (plusToSpace c :: T) = c :: unquoteCore T
      have hmap : plusToSpace c = c := by
        unfold plusToSpace
        rw [if_neg hplus]
      rw [hmap, unquoteCore_cons_ne c T hpct]
    · rw [if_neg hsafe]
      have hbytes : utf8Bytes c.toNat = [c.toNat] := by
        unfold utf8Bytes
        rw [if_pos hc]
      rw [hbytes]
      have hd1 := hexDigitUpper_facts (c.toNat / 16) (by omega)
      have hd2 := hexDigitUpper_facts (c.toNat % 16) (by omega)
      have hnp : ∀ m : Nat, m < 16 → ¬ hexDigitUpper m = '+' := by decide
      show unquoteCore (plusToSpace '%' :: plusToSpace (hexDigitUpper (c.toNat / 16))
          :: plusToSpace (hexDigitUpper (c.toNat % 16)) :: T) = c :: unquoteCore T
      have hm0 : plusToSpace '%' = '%' := rfl
      have hm1 : plusToSpace (hexDigitUpper (c.toNat / 16))
          = hexDigitUpper (c.toNat / 16) := by
        unfold plusToSpace
        rw [if_neg (hnp _ (by omega))]
      have hm2 : plusToSpace (hexDigitUpper (c.toNat % 16))
          = hexDigitUpper (c.toNat % 16) := by
        unfold plusToSpace
        rw [if_neg (hnp _ (by omega))]
      rw [hm0, hm1, hm2, unquoteCore_percent _ _ _ (by rw [hd1.1, hd2.1]; rfl)]
      rw [hd1.2.1, hd2.2.1]
      have : 16 * (c.toNat / 16) + c.toNat % 16 = c.toNat := by omega
      rw [this, Char.ofNat_toNat]

/-- Strings of ASCII characters (the range on which percent-coding is
modelled exactly). -/
def isAsciiStr (s : Str) : Bool := s.all (fun c => c.toNat < 128)

lemma unquotePlus_quotePlus (v : Str) (hv : isAsciiStr v = true) :
    unquotePlus (quotePlus v) = v := by
  induction v with
  | nil => rfl
  | cons c v ih =>
    have hc : c.toNat < 128 := by
      have := (List.all_eq_true.mp hv) c (List.mem_cons_self c v)
      simpa using this
    have hv2 : isAsciiStr v = true := by
      apply List.all_eq_true.mpr
      intro x hx
      exact (List.all_eq_true.mp hv) x (List.mem_cons_of_mem c hx)
    show unquoteCore ((quotePlusChar c ++ quotePlus v).map plusToSpace) = c :: v
    rw [List.map_append, quotePlusChar_step c hc]
    unfold unquotePlus at ih
    rw [ih hv2]

lemma char_le_toNat (a b : Char) : a ≤ b ↔ a.toNat ≤ b.toNat := by
  rw [Char.le_def, UInt32.le_def]
  rfl

lemma char_eq_of_toNat {a b : Char} (h : a.toNat = b.toNat) : a = b :=
  Char.ext (UInt32.toNat.inj h)

lemma char_eq_iff_toNat (a b : Char) : a = b ↔ a.toNat = b.toNat :=
  ⟨fun h => by rw [h], char_eq_of_toNat⟩

lemma pyIsSpace_iff (c : Char) :
    pyIsSpace c = true ↔ (c.toNat = 32 ∨ c.toNat = 9 ∨ c.toNat = 10
      ∨ c.toNat = 13 ∨ c.toNat = 11 ∨ c.toNat = 12) := by
  have h32 : (' ').toNat = 32 := rfl
  have h9 : ('\t').toNat = 9 := rfl
  have h10 : ('\n').toNat = 10 := rfl
  have h13 : ('\r').toNat = 13 := rfl
  unfold pyIsSpace
  simp [char_eq_iff_toNat, h32, h9, h10, h13, or_assoc]

lemma pyLowerChar_toNat (c : Char) :
    (pyLowerChar c).toNat
      = if 65 ≤ c.toNat ∧ c.toNat ≤ 90 then c.toNat + 32 else c.toNat := by
  have hA : ('A').toNat = 65 := rfl
  have hZ : ('Z').toNat = 90 := rfl
  unfold pyLowerChar
  by_cases h : 65 ≤ c.toNat ∧ c.toNat ≤ 90
  · rw [if_pos (by simp [char_le_toNat, hA, hZ]; omega), if_pos h]
    exact char_toNat_ofNat (by omega)
  · rw [if_neg (by simp [char_le_toNat, hA, hZ]; omega), if_neg h]

lemma pyLowerChar_idem (c : Char) : pyLowerChar (pyLowerChar c) = pyLowerChar c := by
  apply char_eq_of_toNat
  rw [pyLowerChar_toNat, pyLowerChar_toNat]
  split_ifs with h1 h2 <;> omega

lemma pyIsSpace_pyLowerChar (c : Char) :
    pyIsSpace (pyLowerChar c) = pyIsSpace c := by
  have h1 := pyIsSpace_iff (pyLowerChar c)
  have h2 := pyIsSpace_iff c
  rw [pyLowerChar_toNat] at h1
  rcases hs : pyIsSpace c
  · rcases hl : pyIsSpace (pyLowerChar c)
    · rfl
    · exfalso
      have hset := h1.mp hl
      have hcn : ¬ (c.toNat = 32 ∨ c.toNat = 9 ∨ c.toNat = 10
          ∨ c.toNat = 13 ∨ c.toNat = 11 ∨ c.toNat = 12) := by
        intro hss
        rw [h2.mpr hss] at hs
        cases hs
      split_ifs at hset <;> omega
  · apply h1.mpr
    have hset := h2.mp hs
    split_ifs with h <;> omega

lemma pyLower_idem (s : Str) : pyLower (pyLower s) = pyLower s := by
  unfold pyLower
  rw [List.map_map]
  apply List.map_congr_left
  intro c _
  exact pyLowerChar_idem c

lemma dropWhile_pyLower (l : Str) :
    (l.map pyLowerChar).dropWhile pyIsSpace
      = (l.dropWhile pyIsSpace).map pyLowerChar := by
  rw [List.dropWhile_map]
  have hfun : (pyIsSpace ∘ pyLowerChar) = pyIsSpace := by
    funext c
    exact pyIsSpace_pyLowerChar c
  rw [hfun]

lemma pyStrip_pyLower (s : Str) : pyStrip (pyLower s) = pyLower (pyStrip s) := by
  unfold pyStrip pyLower
  rw [dropWhile_pyLower, ← List.map_reverse, dropWhile_pyLower, ← List.map_reverse]

lemma head_dropWhile_false (p : Char → Bool) (l : Str) :
    ∀ c, (l.dropWhile p).head? = some c → p c = false := by
  induction l with
  | nil => intro c h; cases h
  | cons a l ih =>
    intro c h
    rw [List.dropWhile_cons] at h
    split_ifs at h with ha
    · exact ih c h
    · injection h with h
      subst h
      simpa using ha

lemma pyStrip_prefix_dropWhile (s : Str) :
    pyStrip s <+: s.dropWhile pyIsSpace := by
  unfold pyStrip
  have h : ((s.dropWhile pyIsSpace).reverse.dropWhile pyIsSpace)
      <:+ (s.dropWhile pyIsSpace).reverse := List.dropWhile_suffix _
  have h2 := List.reverse_prefix.mpr h
  rwa [List.reverse_reverse] at h2

lemma pyStrip_head_not_space (s : Str) :
    ∀ c, (pyStrip s).head? = some c → pyIsSpace c = false := by
  intro c hc
  obtain ⟨u, hu⟩ := pyStrip_prefix_dropWhile s
  have hh : (s.dropWhile pyIsSpace).head? = some c := by
    rw [← hu]
    rcases hps : pyStrip s with _ | ⟨d, rest⟩
    · rw [hps] at hc
      cases hc
    · rw [hps] at hc
      injection hc with hc
      subst hc
      rfl
  exact head_dropWhile_false _ _ c hh

lemma pyStrip_getLast_not_space (s : Str) :
    ∀ c, (pyStrip s).getLast? = some c → pyIsSpace c = false := by
  intro c hc
  unfold pyStrip at hc
  rw [List.getLast?_reverse] at hc
  exact head_dropWhile_false _ _ c hc

lemma pyStrip_eq_self (s : Str)
    (h1 : ∀ c, s.head? = some c → pyIsSpace c = false)
    (h2 : ∀ c, s.getLast? = some c → pyIsSpace c = false) :
    pyStrip s = s := by
  unfold pyStrip
  have hfront : s.dropWhile pyIsSpace = s := by
    rcases s with _ | ⟨c, rest⟩
    · rfl
    · rw [List.dropWhile_cons, if_neg (by rw [h1 c rfl]; simp)]
  rw [hfront]
  have hback : s.reverse.dropWhile pyIsSpace = s.reverse := by
    rcases hrev : s.reverse with _ | ⟨d, drest⟩
    · rfl
    · have hd : s.getLast? = some d := by
        rw [← List.head?_reverse, hrev]
        rfl
      rw [List.dropWhile_cons, if_neg (by rw [h2 d hd]; simp)]
  rw [hback, List.reverse_reverse]

lemma pyStrip_idem (s : Str) : pyStrip (pyStrip s) = pyStrip s :=
  pyStrip_eq_self (pyStrip s) (pyStrip_head_not_space s) (pyStrip_getLast_not_space s)

/-- The loop body of `_extract_utm_from_query`, as a named function. -/
def utmStep (acc : Utm) (kv : Str × Str) : Utm :=
  match matchUtmKey kv.1 with
  | some key => acc.set key (some kv.2)
  | none => acc

/-- Normalization a serialize/decode round trip performs on one UTM value:
absent or empty values are dropped, non-empty ones kept. -/
def normVal (o : Option Str) : Option Str :=
  match o with
  | some v => if v.isEmpty then none else some v
  | none => none

/-- Field-wise `normVal` on a UTM dictionary. -/
def normUtm (u : Utm) : Utm :=
  ⟨normVal u.source, normVal u.medium, normVal u.campaign,
    normVal u.term, normVal u.content⟩

/-- All-ASCII test for an optional string. -/
def asciiOpt (o : Option Str) : Bool :=
  match o with
  | some v => isAsciiStr v
  | none => true

/-- All five UTM values are ASCII (or absent). -/
def asciiUtm (u : Utm) : Bool :=
  asciiOpt u.source && asciiOpt u.medium && asciiOpt u.campaign
    && asciiOpt u.term && asciiOpt u.content

lemma extractUtm_eq_foldl (q : Str) :
    extractUtm q = (parseQsl q).foldl utmStep blankUtm := rfl

lemma char_toNat_lt_max (c : Char) : c.toNat < 1114112 := by
  have h : c.val.toNat < 55296 ∨ 57343 < c.val.toNat ∧ c.val.toNat < 1114112 := c.valid
  show c.val.toNat < 1114112
  omega

lemma utf8Bytes_lt (n : Nat) : ∀ b ∈ utf8Bytes n, n < 1114112 → b < 256 := by
  intro b hb hn
  unfold utf8Bytes at hb
  split_ifs at hb with h1 h2 h3 <;> simp at hb <;> omega

lemma hexDigitUpper_toNat :
    ∀ m : Nat, m < 16 →
      (48 ≤ (hexDigitUpper m).toNat ∧ (hexDigitUpper m).toNat ≤ 57)
      ∨ (65 ≤ (hexDigitUpper m).toNat ∧ (hexDigitUpper m).toNat ≤ 70) := by
  decide

lemma char_ne_of_toNat_ne {a b : Char} (h : a.toNat ≠ b.toNat) : a ≠ b :=
  fun he => h (by rw [he])

lemma pyIsSpace_eq_false_of_toNat (c : Char)
    (h : ¬(c.toNat = 32 ∨ c.toNat = 9 ∨ c.toNat = 10 ∨ c.toNat = 13
      ∨ c.toNat = 11 ∨ c.toNat = 12)) :
    pyIsSpace c = false := by
  rcases hps : pyIsSpace c
  · rfl
  · exact absurd ((pyIsSpace_iff c).mp hps) h

lemma alwaysSafe_toNat (c : Char) (h : alwaysSafe c = true) :
    (97 ≤ c.toNat ∧ c.toNat ≤ 122) ∨ (65 ≤ c.toNat ∧ c.toNat ≤ 90)
      ∨ (48 ≤ c.toNat ∧ c.toNat ≤ 57) ∨ c.toNat = 95 ∨ c.toNat = 46
      ∨ c.toNat = 45 ∨ c.toNat = 126 := by
  have c97 : ('a').toNat = 97 := rfl
  have c122 : ('z').toNat = 122 := rfl
  have c65 : ('A').toNat = 65 := rfl
  have c90 : ('Z').toNat = 90 := rfl
  have c48 : ('0').toNat = 48 := rfl
  have c57 : ('9').toNat = 57 := rfl
  have c95 : ('_').toNat = 95 := rfl
  have c46 : ('.').toNat = 46 := rfl
  have c45 : ('-').toNat = 45 := rfl
  have c126 : ('~').toNat = 126 := rfl
  unfold alwaysSafe at h
  simp only [Bool.or_eq_true, Bool.and_eq_true, decide_eq_true_eq,
    char_le_toNat, char_eq_iff_toNat, c97, c122, c65, c90, c48, c57,
    c95, c46, c45, c126] at h
  omega

/-- Every character emitted by `quote_plus` is `+`, an always-safe character,
`%`, or an upper-case hex digit; in particular it is not `&`, `=`, `:`, `?`
or `/`, and it is not Python whitespace. -/
lemma quotePlus_char_facts (v : Str) (c : Char) (h : c ∈ quotePlus v) :
    c ≠ '&' ∧ c ≠ '=' ∧ c ≠ ':' ∧ c ≠ '?' ∧ c ≠ '/' ∧ pyIsSpace c = false := by
  obtain ⟨d, _, hc⟩ := List.mem_flatMap.mp h
  have harith : (97 ≤ c.toNat ∧ c.toNat ≤ 122) ∨ (65 ≤ c.toNat ∧ c.toNat ≤ 90)
      ∨ (48 ≤ c.toNat ∧ c.toNat ≤ 57) ∨ c.toNat = 95 ∨ c.toNat = 46
      ∨ c.toNat = 45 ∨ c.toNat = 126 ∨ c.toNat = 43 ∨ c.toNat = 37 := by
    unfold quotePlusChar at hc
    split_ifs at hc with h1 h2
    · rw [List.mem_singleton] at hc
      subst hc
      right; right; right; right; right; right; right; left; rfl
    · rw [List.mem_singleton] at hc
      subst hc
      have := alwaysSafe_toNat _ h2
      omega
    · obtain ⟨b, hb, hcb⟩ := List.mem_flatMap.mp hc
      have hblt : b < 256 := utf8Bytes_lt d.toNat b hb (char_toNat_lt_max d)
      unfold percentByte at hcb
      rcases List.mem_cons.mp hcb with rfl | hcb2
      · right; right; right; right; right; right; right; right; rfl
      rcases List.mem_cons.mp hcb2 with rfl | hcb3
      · have := hexDigitUpper_toNat (b / 16) (by omega)
        omega
      rcases List.mem_cons.mp hcb3 with rfl | hcb4
      · have := hexDigitUpper_toNat (b % 16) (by omega)
        omega
      · cases hcb4
  have n38 : ('&').toNat = 38 := rfl
  have n61 : ('=').toNat = 61 := rfl
  have n58 : (':').toNat = 58 := rfl
  have n63 : ('?').toNat = 63 := rfl
  have n47 : ('/').toNat = 47 := rfl
  refine ⟨char_ne_of_toNat_ne (by rw [n38]; omega),
    char_ne_of_toNat_ne (by rw [n61]; omega),
    char_ne_of_toNat_ne (by rw [n58]; omega),
    char_ne_of_toNat_ne (by rw [n63]; omega),
    char_ne_of_toNat_ne (by rw [n47]; omega),
    pyIsSpace_eq_false_of_toNat c (by omega)⟩

lemma quotePlusChar_ne_nil (c : Char) : quotePlusChar c ≠ [] := by
  unfold quotePlusChar
  split_ifs with h1 h2
  · simp
  · simp
  · unfold utf8Bytes
    split_ifs with h3 h4 h5 <;> simp [percentByte]

lemma quotePlus_ne_nil (v : Str) (hv : v ≠ []) : quotePlus v ≠ [] := by
  cases v with
  | nil => exact absurd rfl hv
  | cons c r =>
    intro hcontra
    rw [quotePlus, List.flatMap_cons] at hcontra
    exact quotePlusChar_ne_nil c (List.append_eq_nil.mp hcontra).1

lemma splitOnce_append_sep (sep : Char) (a b : Str) (ha : sep ∉ a) :
    splitOnce sep (a ++ sep :: b) = some (a, b) := by
  induction a with
  | nil =>
    show splitOnce sep (sep :: b) = some ([], b)
    unfold splitOnce
    rw [if_pos rfl]
  | cons x a ih =>
    have hx : ¬ x = sep := fun h => ha (h ▸ List.mem_cons_self x a)
    have ha' : sep ∉ a := fun h => ha (List.mem_cons_of_mem x h)
    show splitOnce sep (x :: (a ++ sep :: b)) = some (x :: a, b)
    unfold splitOnce
    rw [if_neg hx, ih ha']

lemma splitOnce_eq_none (sep : Char) (s : Str) (h : sep ∉ s) :
    splitOnce sep s = none := by
  induction s with
  | nil => rfl
  | cons x s ih =>
    have hx : ¬ x = sep := fun hh => h (hh ▸ List.mem_cons_self x s)
    have h' : sep ∉ s := fun hh => h (List.mem_cons_of_mem x hh)
    unfold splitOnce
    rw [if_neg hx, ih h']

lemma pre_append_cons (n u b : Str) (c : Char) (h : n <+: u ++ c :: b) :
    n <+: u ∨ c ∈ n := by
  induction n generalizing u with
  | nil => exact Or.inl (List.nil_prefix)
  | cons m n' ih =>
    cases u with
    | nil =>
      obtain ⟨t, ht⟩ := h
      injection ht with h1 _
      subst h1
      exact Or.inr (List.mem_cons_self m n')
    | cons y u' =>
      obtain ⟨t, ht⟩ := h
      injection ht with h1 h2
      subst h1
      rcases ih u' ⟨t, h2⟩ with hp | hm
      · exact Or.inl (List.cons_prefix_cons.mpr ⟨rfl, hp⟩)
      · exact Or.inr (List.mem_cons_of_mem _ hm)

lemma containsSub_of_no_head (x : Char) (n' s : Str) (h : x ∉ s) :
    containsSub (x :: n') s = false := by
  induction s with
  | nil => rfl
  | cons y s ih =>
    have hxy : ¬ x = y := fun hh => h (hh ▸ List.mem_cons_self y s)
    have h' : x ∉ s := fun hh => h (List.mem_cons_of_mem y hh)
    show ((x :: n').isPrefixOf (y :: s) || containsSub (x :: n') s) = false
    rw [ih h']
    have hpf : (x :: n').isPrefixOf (y :: s) = false := by
      rcases hp : (x :: n').isPrefixOf (y :: s)
      · rfl
      · exfalso
        have hpre := List.isPrefixOf_iff_prefix.mp hp
        rw [List.cons_prefix_cons] at hpre
        exact hxy hpre.1
    rw [hpf]
    rfl

lemma containsSub_append_mid (n a b : Str) (c : Char) (hn : n ≠ [])
    (hc : c ∉ n) (ha : containsSub n a = false) (hb : containsSub n b = false) :
    containsSub n (a ++ c :: b) = false := by
  induction a with
  | nil =>
    show (n.isPrefixOf (c :: b) || containsSub n b) = false
    rw [hb]
    have hpf : n.isPrefixOf (c :: b) = false := by
      rcases hp : n.isPrefixOf (c :: b)
      · rfl
      · exfalso
        have hpre := List.isPrefixOf_iff_prefix.mp hp
        cases n with
        | nil => exact hn rfl
        | cons m n' =>
          rw [List.cons_prefix_cons] at hpre
          exact hc (hpre.1 ▸ List.mem_cons_self m n')
    rw [hpf]
    rfl
  | cons x a ih =>
    have ha' : containsSub n a = false := by
      rcases hca : containsSub n a
      · rfl
      · exfalso
        have hx : containsSub n (x :: a) = true := by
          show (n.isPrefixOf (x :: a) || containsSub n a) = true
          rw [hca, Bool.or_true]
        rw [hx] at ha
        cases ha
    show (n.isPrefixOf (x :: (a ++ c :: b)) || containsSub n (a ++ c :: b)) = false
    rw [ih ha']
    have hpf : n.isPrefixOf (x :: (a ++ c :: b)) = false := by
      rcases hp : n.isPrefixOf (x :: (a ++ c :: b))
      · rfl
      · exfalso
        have hpre := List.isPrefixOf_iff_prefix.mp hp
        have hpre2 : n <+: (x :: a) ++ c :: b := by simpa using hpre
        rcases pre_append_cons n (x :: a) b c hpre2 with hp2 | hm
        · have hxa : containsSub n (x :: a) = true := by
            show (n.isPrefixOf (x :: a) || containsSub n a) = true
            rw [List.isPrefixOf_iff_prefix.mpr hp2, Bool.true_or]
          rw [hxa] at ha
          cases ha
        · exact hc hm
    rw [hpf]
    rfl

lemma mem_intercalate_sep (x : Char) (l : List Str) (c : Char)
    (h : c ∈ List.intercalate [x] l) : c = x ∨ ∃ s ∈ l, c ∈ s := by
  induction l with
  | nil => simp [List.intercalate] at h
  | cons a l ih =>
    cases l with
    | nil =>
      have he : List.intercalate [x] [a] = a := by simp [List.intercalate]
      rw [he] at h
      exact Or.inr ⟨a, List.mem_cons_self a [], h⟩
    | cons b l' =>
      have he : List.intercalate [x] (a :: b :: l')
          = a ++ x :: List.intercalate [x] (b :: l') := by
        simp [List.intercalate, List.intersperse_cons_cons]
      rw [he] at h
      rcases List.mem_append.mp h with hc1 | hc2
      · exact Or.inr ⟨a, List.mem_cons_self a _, hc1⟩
      · rcases List.mem_cons.mp hc2 with rfl | hc3
        · exact Or.inl rfl
        · rcases ih hc3 with hx | ⟨s, hs, hcs⟩
          · exact Or.inl hx
          · exact Or.inr ⟨s, List.mem_cons_of_mem a hs, hcs⟩

/-- No character of a `urlencode` output is `:`, `?` or Python whitespace. -/
lemma urlencode_char_facts (pairs : List (Str × Str)) (c : Char)
    (h : c ∈ urlencode pairs) :
    c ≠ ':' ∧ c ≠ '?' ∧ pyIsSpace c = false := by
  unfold urlencode at h
  rcases mem_intercalate_sep '&' _ c h with rfl | ⟨s, hs, hcs⟩
  · exact ⟨by decide, by decide, by decide⟩
  · obtain ⟨p, _, rfl⟩ := List.mem_map.mp hs
    rcases List.mem_append.mp hcs with hc1 | hc2
    · have hf := quotePlus_char_facts p.1 c hc1
      exact ⟨hf.2.2.1, hf.2.2.2.1, hf.2.2.2.2.2⟩
    · rcases List.mem_cons.mp hc2 with rfl | hc3
      · exact ⟨by decide, by decide, by decide⟩
      · have hf := quotePlus_char_facts p.2 c hc3
        exact ⟨hf.2.2.1, hf.2.2.2.1, hf.2.2.2.2.2⟩

lemma encPair_no_amp (p : Str × Str) :
    '&' ∉ quotePlus p.1 ++ '=' :: quotePlus p.2 := by
  intro h
  rcases List.mem_append.mp h with h1 | h2
  · exact (quotePlus_char_facts p.1 '&' h1).1 rfl
  · rcases List.mem_cons.mp h2 with he | h3
    · exact absurd he (by decide)
    · exact (quotePlus_char_facts p.2 '&' h3).1 rfl

lemma urlencode_ne_nil (p : Str × Str) (rest : List (Str × Str)) :
    urlencode (p :: rest) ≠ [] := by
  unfold urlencode
  cases rest with
  | nil => simp [List.intercalate]
  | cons q rest' => simp [List.intercalate, List.intersperse_cons_cons]

lemma parseQslPair_enc (k v : Str) (hk : quotePlus k = k) (hkeq : '=' ∉ k)
    (hkk : unquotePlus k = k) (hv : v ≠ []) (hva : isAsciiStr v = true) :
    parseQslPair (quotePlus k ++ '=' :: quotePlus v) = some (k, v) := by
  rw [hk]
  unfold parseQslPair
  have hne : (k ++ '=' :: quotePlus v).isEmpty = false := by
    cases k <;> rfl
  simp only [hne]
  rw [if_neg Bool.false_ne_true, splitOnce_append_sep '=' k (quotePlus v) hkeq]
  have hqv : (quotePlus v).isEmpty = false := by
    rcases hq : quotePlus v with _ | ⟨c, r⟩
    · exact absurd hq (quotePlus_ne_nil v hv)
    · rfl
  show (if (quotePlus v).isEmpty = true then none
    else some (unquotePlus k, unquotePlus (quotePlus v))) = some (k, v)
  simp only [hqv]
  rw [if_neg Bool.false_ne_true, hkk, unquotePlus_quotePlus v hva]

lemma parseQsl_urlencode (pairs : List (Str × Str))
    (hgood : ∀ p ∈ pairs, quotePlus p.1 = p.1 ∧ '=' ∉ p.1 ∧ unquotePlus p.1 = p.1
      ∧ p.2 ≠ [] ∧ isAsciiStr p.2 = true) :
    parseQsl (urlencode pairs) = pairs := by
  cases pairs with
  | nil => rfl
  | cons p0 rest =>
    unfold parseQsl urlencode
    rw [List.splitOn_intercalate
      ((p0 :: rest).map fun p => quotePlus p.1 ++ '=' :: quotePlus p.2) '&'
      (by
        intro l hl
        obtain ⟨p, _, rfl⟩ := List.mem_map.mp hl
        exact encPair_no_amp p)
      (by simp)]
    rw [List.filterMap_map]
    rw [List.filterMap_congr (g := some) (by
      intro p hp
      obtain ⟨h1, h2, h3, h4, h5⟩ := hgood p hp
      show parseQslPair (quotePlus p.1 ++ '=' :: quotePlus p.2) = some p
      rw [parseQslPair_enc p.1 p.2 h1 h2 h3 h4 h5])]
    exact List.filterMap_some _

lemma matchUtmKey_keys :
    matchUtmKey "utm_source".data = some .source
    ∧ matchUtmKey "utm_medium".data = some .medium
    ∧ matchUtmKey "utm_campaign".data = some .campaign
    ∧ matchUtmKey "utm_term".data = some .term
    ∧ matchUtmKey "utm_content".data = some .content := by
  decide

lemma foldl_optPart_key (k : Str) (key : UtmKey) (hk : matchUtmKey k = some key)
    (o : Option Str) (acc : Utm) :
    List.foldl utmStep acc (optPart k o)
      = if optTruthy o then acc.set key o else acc := by
  cases o with
  | none => rfl
  | some v =>
    by_cases hv : v.isEmpty
    · simp [optPart, hv, optTruthy]
    · simp [optPart, hv, optTruthy, utmStep, hk]

lemma normVal_eq (o : Option Str) : normVal o = if optTruthy o then o else none := by
  cases o with
  | none => rfl
  | some v => by_cases hv : v.isEmpty <;> simp [normVal, optTruthy, hv]

lemma foldl_utmPairs (u : Utm) :
    List.foldl utmStep blankUtm (utmPairs u) = normUtm u := by
  unfold utmPairs
  rw [List.foldl_append, List.foldl_append, List.foldl_append, List.foldl_append]
  rw [foldl_optPart_key _ _ matchUtmKey_keys.1,
    foldl_optPart_key _ _ matchUtmKey_keys.2.1,
    foldl_optPart_key _ _ matchUtmKey_keys.2.2.1,
    foldl_optPart_key _ _ matchUtmKey_keys.2.2.2.1,
    foldl_optPart_key _ _ matchUtmKey_keys.2.2.2.2]
  split_ifs with h1 h2 h3 h4 h5 <;>
    simp_all [normUtm, normVal_eq, Utm.set, blankUtm]

lemma optPart_normVal (k : Str) (o : Option Str) :
    optPart k (normVal o) = optPart k o := by
  cases o with
  | none => rfl
  | some v => by_cases hv : v.isEmpty <;> simp [normVal, optPart, hv]

lemma utmPairs_normUtm (u : Utm) : utmPairs (normUtm u) = utmPairs u := by
  show optPart "utm_source".data (normVal u.source)
      ++ optPart "utm_medium".data (normVal u.medium)
      ++ optPart "utm_campaign".data (normVal u.campaign)
      ++ optPart "utm_term".data (normVal u.term)
      ++ optPart "utm_content".data (normVal u.content)
    = utmPairs u
  rw [optPart_normVal, optPart_normVal, optPart_normVal, optPart_normVal,
    optPart_normVal]
  rfl

lemma mem_optPart {p : Str × Str} (k : Str) (o : Option Str) (h : p ∈ optPart k o) :
    p.1 = k ∧ o = some p.2 ∧ p.2 ≠ [] := by
  cases o with
  | none => cases h
  | some v =>
    have h' : p ∈ (if v.isEmpty then ([] : List (Str × Str)) else [(k, v)]) := h
    split_ifs at h' with hv
    · cases h'
    · rw [List.mem_singleton] at h'
      subst h'
      refine ⟨rfl, rfl, ?_⟩
      intro hnil
      have hn2 : v = [] := hnil
      rw [hn2] at hv
      exact hv rfl

lemma normVal_of_optPart_nil (k : Str) (o : Option Str) (h : optPart k o = []) :
    normVal o = none := by
  cases o with
  | none => rfl
  | some v =>
    have h' : (if v.isEmpty then ([] : List (Str × Str)) else [(k, v)]) = [] := h
    split_ifs at h' with hv
    simp [normVal, hv]

lemma utmPairs_good (u : Utm) (ha : asciiUtm u = true) :
    ∀ p ∈ utmPairs u, quotePlus p.1 = p.1 ∧ '=' ∉ p.1 ∧ unquotePlus p.1 = p.1
      ∧ p.2 ≠ [] ∧ isAsciiStr p.2 = true := by
  have hk : ∀ k : Str,
      (k = "utm_source".data ∨ k = "utm_medium".data ∨ k = "utm_campaign".data
        ∨ k = "utm_term".data ∨ k = "utm_content".data) →
      quotePlus k = k ∧ '=' ∉ k ∧ unquotePlus k = k := by
    intro k hks
    rcases hks with rfl | rfl | rfl | rfl | rfl <;>
      exact ⟨by decide, by decide, by decide⟩
  have haf : asciiOpt u.source = true ∧ asciiOpt u.medium = true
      ∧ asciiOpt u.campaign = true ∧ asciiOpt u.term = true
      ∧ asciiOpt u.content = true := by
    unfold asciiUtm at ha
    simp only [Bool.and_eq_true] at ha
    tauto
  have hval : ∀ (o : Option Str) (v : Str), asciiOpt o = true → o = some v →
      isAsciiStr v = true := by
    intro o v hao heq
    rw [heq] at hao
    exact hao
  intro p hp
  unfold utmPairs at hp
  rcases List.mem_append.mp hp with hp4 | hpC
  · rcases List.mem_append.mp hp4 with hp3 | hpT
    · rcases List.mem_append.mp hp3 with hp2 | hpCa
      · rcases List.mem_append.mp hp2 with hpS | hpM
        · obtain ⟨he1, he2, he3⟩ := mem_optPart _ _ hpS
          exact ⟨(hk p.1 (by tauto)).1, (hk p.1 (by tauto)).2.1,
            (hk p.1 (by tauto)).2.2, he3, hval _ _ haf.1 he2⟩
        · obtain ⟨he1, he2, he3⟩ := mem_optPart _ _ hpM
          exact ⟨(hk p.1 (by tauto)).1, (hk p.1 (by tauto)).2.1,
            (hk p.1 (by tauto)).2.2, he3, hval _ _ haf.2.1 he2⟩
      · obtain ⟨he1, he2, he3⟩ := mem_optPart _ _ hpCa
        exact ⟨(hk p.1 (by tauto)).1, (hk p.1 (by tauto)).2.1,
          (hk p.1 (by tauto)).2.2, he3, hval _ _ haf.2.2.1 he2⟩
    · obtain ⟨he1, he2, he3⟩ := mem_optPart _ _ hpT
      exact ⟨(hk p.1 (by tauto)).1, (hk p.1 (by tauto)).2.1,
        (hk p.1 (by tauto)).2.2, he3, hval _ _ haf.2.2.2.1 he2⟩
  · obtain ⟨he1, he2, he3⟩ := mem_optPart _ _ hpC
    exact ⟨(hk p.1 (by tauto)).1, (hk p.1 (by tauto)).2.1,
      (hk p.1 (by tauto)).2.2, he3, hval _ _ haf.2.2.2.2 he2⟩

lemma optTruthy_some {s : Str} (h : s ≠ []) : optTruthy (some s) = true := by
  rcases hs : s with _ | ⟨c, r⟩
  · exact absurd hs h
  · rfl

/-- With a truthy host and no fallback, `serialize_ref` returns the cleaned
host, with the urlencoded UTM pairs appended after `?` when any exist. -/
lemma serializeRef_host (host : Str) (utm : Utm)
    (hch : pyLower (pyStrip host) ≠ []) :
    serializeRef (some host) utm none
      = some (if (utmPairs utm).isEmpty then pyLower (pyStrip host)
          else pyLower (pyStrip host) ++ '?' :: urlencode (utmPairs utm)) := by
  have hhost : host ≠ [] := by
    intro hh
    rw [hh] at hch
    exact hch rfl
  have h1 : optTruthy (some host) = true := optTruthy_some hhost
  have h2 : optTruthy (some (pyLower (pyStrip host))) = true := optTruthy_some hch
  by_cases hparts : (utmPairs utm).isEmpty = true
  · simp [serializeRef, hparts, h1, h2]
  · have hq : urlencode (utmPairs utm) ≠ [] := by
      rcases hup : utmPairs utm with _ | ⟨p, rest⟩
      · rw [hup] at hparts
        exact absurd rfl hparts
      · exact urlencode_ne_nil p rest
    simp [serializeRef, hparts, h1, h2, hq]

lemma chost_strip (host : Str) :
    pyStrip (pyLower (pyStrip host)) = pyLower (pyStrip host) := by
  rw [pyStrip_pyLower, pyStrip_idem]

lemma chost_clean (host : Str) :
    pyLower (pyStrip (pyLower (pyStrip host))) = pyLower (pyStrip host) := by
  rw [chost_strip]
  exact pyLower_idem _

lemma chost_head (host : Str) :
    ∀ c, (pyLower (pyStrip host)).head? = some c → pyIsSpace c = false := by
  have h := pyStrip_head_not_space (pyLower host)
  rw [pyStrip_pyLower] at h
  exact h

lemma chost_last (host : Str) :
    ∀ c, (pyLower (pyStrip host)).getLast? = some c → pyIsSpace c = false := by
  have h := pyStrip_getLast_not_space (pyLower host)
  rw [pyStrip_pyLower] at h
  exact h

/-- Decoding an `urlencode` of the serialized UTM pairs recovers the
normalized UTM dictionary. -/
lemma extractUtm_urlencode (u : Utm) (ha : asciiUtm u = true) :
    extractUtm (urlencode (utmPairs u)) = normUtm u := by
  rw [extractUtm_eq_foldl, parseQsl_urlencode _ (utmPairs_good u ha), foldl_utmPairs]

lemma normUtm_of_pairs_nil (u : Utm) (h : utmPairs u = []) : normUtm u = blankUtm := by
  unfold utmPairs at h
  obtain ⟨h4, hC⟩ := List.append_eq_nil.mp h
  obtain ⟨h3, hT⟩ := List.append_eq_nil.mp h4
  obtain ⟨h2, hCa⟩ := List.append_eq_nil.mp h3
  obtain ⟨hS, hM⟩ := List.append_eq_nil.mp h2
  unfold normUtm blankUtm
  rw [normVal_of_optPart_nil _ _ hS, normVal_of_optPart_nil _ _ hM,
    normVal_of_optPart_nil _ _ hCa, normVal_of_optPart_nil _ _ hT,
    normVal_of_optPart_nil _ _ hC]

/-- `strip()` is the identity on `host?query` when the host starts with a
non-space character and the query's characters are all non-space. -/
lemma pyStrip_id_append_query (ch q : Str) (hne : ch ≠ [])
    (hh : ∀ c, ch.head? = some c → pyIsSpace c = false)
    (hlq : ∀ c, c ∈ q → pyIsSpace c = false) (hqne : q ≠ []) :
    pyStrip (ch ++ '?' :: q) = ch ++ '?' :: q := by
  apply pyStrip_eq_self
  · intro c hc
    rcases ch with _ | ⟨a, r⟩
    · exact absurd rfl hne
    · exact hh c hc
  · intro c hc
    rw [List.getLast?_append] at hc
    have hql : ('?' :: q).getLast? = q.getLast? := by
      rcases q with _ | ⟨x, q'⟩
      · exact absurd rfl hqne
      · exact List.getLast?_cons_cons
    rw [hql] at hc
    rcases hq0 : q.getLast? with _ | z
    · exact absurd (List.getLast?_eq_none_iff.mp hq0) hqne
    · rw [hq0, Option.or_some] at hc
      injection hc with hzc
      subst hzc
      exact hlq z (List.mem_of_mem_getLast? (by rw [hq0]; rfl))

/-- `decode_ref` on a plain stripped lowered host with no `?` and no `://`. -/
lemma decodeRef_plain (ch : Str) (hne : ch ≠ [])
    (hstrip : pyStrip ch = ch) (hlo : pyLower (pyStrip ch) = ch)
    (hq : '?' ∉ ch)
    (hcol : containsSub (':' :: '/' :: '/' :: []) ch = false) :
    decodeRef (some ch) = some ⟨some ch, blankUtm⟩ := by
  have hsp : splitOnce '?' ch = none := splitOnce_eq_none '?' ch hq
  have hext : extractUtm ([] : Str) = blankUtm := rfl
  rcases hc : ch with _ | ⟨a, r⟩
  · exact absurd hc hne
  subst hc
  have ha : ¬ (a = '?') := by
    intro hEq
    apply hq
    rw [← hEq]
    exact List.mem_cons_self a r
  rw [hstrip] at hlo
  simp [decodeRef, hstrip, hcol, ha, hsp, hlo, hext]

/-- `decode_ref` on `host?query` splits at the first `?` and decodes the
query, when the host is clean and the query has no `:`. -/
lemma decodeRef_hostquery (ch q : Str) (hne : ch ≠ [])
    (hstrip : pyStrip (ch ++ '?' :: q) = ch ++ '?' :: q)
    (hlo : pyLower (pyStrip ch) = ch)
    (hq : '?' ∉ ch)
    (hcolch : containsSub (':' :: '/' :: '/' :: []) ch = false)
    (hqcolon : ':' ∉ q) :
    decodeRef (some (ch ++ '?' :: q)) = some ⟨some ch, extractUtm q⟩ := by
  have hcol : containsSub (':' :: '/' :: '/' :: []) (ch ++ '?' :: q) = false :=
    containsSub_append_mid _ ch q '?' (by simp) (by decide) hcolch
      (containsSub_of_no_head ':' ['/', '/'] q hqcolon)
  have hsp : splitOnce '?' (ch ++ '?' :: q) = some (ch, q) :=
    splitOnce_append_sep '?' ch q hq
  rcases hc : ch with _ | ⟨a, r⟩
  · exact absurd hc hne
  subst hc
  have ha : ¬ (a = '?') := by
    intro hEq
    apply hq
    rw [← hEq]
    exact List.mem_cons_self a r
  rw [List.cons_append] at hstrip hcol hsp
  simp [decodeRef, hstrip, hcol, ha, hsp, hlo]

/-!
Claim theorems.
-/

/-- Claim C2: `try_consume(amount)` refills `tokens` to
`min(C, tokens + (C/W)*elapsed)` and updates `last_refill`, then subtracts
`amount` and returns allowed iff `tokens >= amount` (denied leaves the
refilled tokens unchanged); after `N` consumptions of one token with no
elapsed time the remaining tokens are `max(0, C−N)`; after a full refill
window with no consumption the tokens return to exactly `C`, and a refill
never pushes the tokens above `C`. -/
theorem C2_token_bucket_refill_consume (b : TokenBucket) (now amount : Rat)
    (hW : 0 < b.refill_seconds) (hnow : b.last_refill ≤ now)
    (htok0 : 0 ≤ b.tokens) (htok : b.tokens ≤ (b.capacity : Rat)) :
    ((b.refillAt now).tokens
        = min (b.capacity : Rat)
            (b.tokens + ((b.capacity : Rat) / (b.refill_seconds : Rat))
              * (now - b.last_refill))
      ∧ (b.refillAt now).last_refill = now)
    ∧ ((b.try_consume now amount).1 = true ↔ amount ≤ (b.refillAt now).tokens)
    ∧ ((b.try_consume now amount).1 = true →
        (b.try_consume now amount).2.tokens = (b.refillAt now).tokens - amount)
    ∧ ((b.try_consume now amount).1 = false →
        (b.try_consume now amount).2.tokens = (b.refillAt now).tokens)
    ∧ (∀ (N : Nat) (C : Int), 0 ≤ C →
        ((TokenBucket.mk C b.refill_seconds (C : Rat) now).consumeN now N).tokens
          = max 0 ((C : Rat) - (N : Rat)))
    ∧ (b.refillAt (b.last_refill + (b.refill_seconds : Rat))).tokens
        = (b.capacity : Rat)
    ∧ (∀ t : Rat, (b.refillAt t).tokens ≤ (b.capacity : Rat)) := by
  have hre := refillAt_of_elapsed_nonneg b now hW hnow htok
  refine ⟨⟨by rw [hre], by rw [hre]⟩, ?_, ?_, ?_, ?_,
    refillAt_full_window b hW htok0, fun t => refillAt_tokens_le_cap b t htok⟩
  · unfold TokenBucket.try_consume
    split_ifs with hc <;> simp [hc]
  · unfold TokenBucket.try_consume
    split_ifs with hc <;> simp [hc]
  · unfold TokenBucket.try_consume
    split_ifs with hc <;> simp [hc]
  · intro N C hC
    have h := consumeN_tokens_eq b.refill_seconds C now N C.toNat
    have hcast : ((C.toNat : Nat) : Rat) = (C : Rat) := by
      exact_mod_cast congrArg (fun z : Int => (z : Rat)) (Int.toNat_of_nonneg hC)
    rw [hcast] at h
    rw [h]
    rw [Int.toNat_of_nonneg hC]
    push_cast
    rfl

/-- Witness for C2 at concrete inputs: a full bucket of capacity 10 drained
three times at a fixed instant holds 7 tokens, and a bucket with 2 tokens
refills to its capacity 10 after one full 10-second window. -/
theorem C2_token_bucket_refill_consume_witness :
    (((TokenBucket.mk 10 10 ((10 : Int) : Rat) 5).consumeN 5 3).tokens = 7)
    ∧ ((TokenBucket.mk 10 10 (2 : Rat) 0).refillAt (0 + ((10 : Int) : Rat))).tokens
        = ((10 : Int) : Rat) := by
  have h := C2_token_bucket_refill_consume (TokenBucket.mk 10 10 (2 : Rat) 0) 5 1
    (by norm_num) (by norm_num) (by norm_num) (by push_cast; norm_num)
  constructor
  · have h5 := h.2.2.2.2.1 3 10 (by norm_num)
    rw [h5]
    norm_num
  · exact h.2.2.2.2.2.1

/-- Claim C9: `try_consume` is total; when the refill window is zero or
negative, or no time has elapsed, the refill computation (which divides by
`refill_seconds`) is skipped entirely: tokens and `last_refill` are left
unchanged before the consumption check, and a zero-window bucket never
refills at any clock reading. -/
theorem C9_zero_window_skips_refill (b : TokenBucket) (now amount : Rat)
    (h : b.refill_seconds ≤ 0 ∨ now - b.last_refill ≤ 0) :
    b.refillAt now = b
    ∧ (b.try_consume now amount).2.last_refill = b.last_refill
    ∧ (b.try_consume now amount).2.tokens
        = (if amount ≤ b.tokens then b.tokens - amount else b.tokens)
    ∧ ((b.try_consume now amount).1 = true ↔ amount ≤ b.tokens)
    ∧ (b.refill_seconds ≤ 0 → ∀ t : Rat, b.refillAt t = b) := by
  have hskip : ∀ t : Rat, b.refill_seconds ≤ 0 ∨ t - b.last_refill ≤ 0 →
      b.refillAt t = b := by
    intro t ht
    unfold TokenBucket.refillAt
    rw [if_neg]
    rcases ht with h1 | h2
    · exact fun hc => absurd hc.1 (not_lt.mpr h1)
    · exact fun hc => absurd hc.2 (not_lt.mpr h2)
  have hre := hskip now h
  refine ⟨hre, ?_, ?_, ?_, fun hz t => hskip t (Or.inl hz)⟩
  · unfold TokenBucket.try_consume
    rw [hre]
    split_ifs <;> rfl
  · unfold TokenBucket.try_consume
    rw [hre]
    split_ifs <;> rfl
  · unfold TokenBucket.try_consume
    rw [hre]
    split_ifs with hc <;> simp [hc]

/-- Witness for C9: a bucket with a zero refill window, drained once, keeps
its clock and loses exactly the consumed token, and never refills. -/
theorem C9_zero_window_skips_refill_witness :
    (TokenBucket.mk 10 0 (4 : Rat) 3).refillAt 50 = TokenBucket.mk 10 0 (4 : Rat) 3
    ∧ ((TokenBucket.mk 10 0 (4 : Rat) 3).try_consume 50 1).2.tokens
        = (if (1 : Rat) ≤ 4 then (4 : Rat) - 1 else 4) := by
  have h := C9_zero_window_skips_refill (TokenBucket.mk 10 0 (4 : Rat) 3) 50 1
    (Or.inl (by norm_num))
  exact ⟨h.2.2.2.2 (by norm_num) 50, h.2.2.1⟩

/-- Claim C3: `submit(task_id, kind, fn, arg)` returns `false` and changes no
state when the queue depth is at least `max_queue_size`; otherwise it returns
`true` and immediately creates a `queued` `TaskRecord` for `task_id`,
observable via `status(task_id)`, and appends the job to the FIFO. -/
theorem C3_submit_backpressure {α : Type} (s : QueueState α) (now : Rat)
    (task_id kind : Str) (job : α) :
    (s.max_queue_size ≤ s.queue.length →
      s.submit now task_id kind job = (false, s))
    ∧ (s.queue.length < s.max_queue_size →
        (s.submit now task_id kind job).1 = true
        ∧ (s.submit now task_id kind job).2.statusOf task_id
            = some ⟨task_id, kind, now, none, none, .queued, none⟩
        ∧ (s.submit now task_id kind job).2.queue = s.queue ++ [(task_id, job)]) := by
  constructor
  · intro hfull
    unfold QueueState.submit
    rw [if_pos hfull]
  · intro hroom
    have hn : ¬ s.max_queue_size ≤ s.queue.length := Nat.not_le.mpr hroom
    unfold QueueState.submit
    rw [if_neg hn]
    refine ⟨rfl, ?_, rfl⟩
    show lookupTask (updateTask s.tasks task_id _) task_id = _
    unfold lookupTask updateTask
    rw [dictGet_dictSet_same]

/-- Witness for C3: a queue holding one job with `max_queue_size = 1` rejects
a submission unchanged; an empty queue with the default size 256 accepts it
and the fresh record is `queued` and visible through `status`. -/
theorem C3_submit_backpressure_witness :
    ((QueueState.mk [("a".data, ())] [] 1).submit 0 "b".data "webhook".data ()
        = (false, QueueState.mk [("a".data, ())] [] 1))
    ∧ ((QueueState.mk ([] : List (Str × Unit)) [] 256).submit 0 "b".data
          "webhook".data ()).1 = true
    ∧ ((QueueState.mk ([] : List (Str × Unit)) [] 256).submit 0 "b".data
          "webhook".data ()).2.statusOf "b".data
        = some ⟨"b".data, "webhook".data, 0, none, none, .queued, none⟩ := by
  have h1 := (C3_submit_backpressure (QueueState.mk [("a".data, ())] [] 1) 0
    "b".data "webhook".data ()).1 (by decide)
  have h2 := (C3_submit_backpressure (QueueState.mk ([] : List (Str × Unit)) [] 256)
    0 "b".data "webhook".data ()).2 (by decide)
  exact ⟨h1, h2.1, h2.2.1⟩

/-- Claim C5: for every dequeued job with a known record, the consumer marks
the record `running` with `started_at` before invoking the job function, then
`done` on normal return or `error` with the exception message captured and
`finished_at` set; the queue advances past the job either way, and the worker
loop drains every queued job no matter how many of them raise. -/
theorem C5_consumer_transitions {α : Type} (exec : α → Except Str Unit)
    (s : QueueState α) (task_id : Str) (job : α) (rest : List (Str × α))
    (rec : TaskRecord) (t1 t2 : Rat)
    (hq : s.queue = (task_id, job) :: rest)
    (hr : lookupTask s.tasks task_id = some rec) :
    (consumerStep exec s t1 t2).queue = rest
    ∧ (consumerStep exec s t1 t2).statusOf task_id
        = some (finishRecord (markRunning rec t1) (exec job) t2)
    ∧ (markRunning rec t1).status = .running
    ∧ (markRunning rec t1).started_at = some t1
    ∧ (∀ u, exec job = .ok u →
        (finishRecord (markRunning rec t1) (exec job) t2).status = .done
        ∧ (finishRecord (markRunning rec t1) (exec job) t2).finished_at = some t2)
    ∧ (∀ msg, exec job = .error msg →
        (finishRecord (markRunning rec t1) (exec job) t2).status = .error
        ∧ (finishRecord (markRunning rec t1) (exec job) t2).error = some msg)
    ∧ (∀ clock : Nat → Rat × Rat,
        (consumerRun exec clock s.queue.length s).queue = []) := by
  have hstep : consumerStep exec s t1 t2
      = { s with
          queue := rest
          tasks := updateTask s.tasks task_id
            (finishRecord (markRunning rec t1) (exec job) t2) } := by
    unfold consumerStep
    rw [hq]
    dsimp only
    rw [hr]
  refine ⟨by rw [hstep], ?_, rfl, rfl, ?_, ?_, ?_⟩
  · rw [hstep]
    show lookupTask (updateTask s.tasks task_id _) task_id = _
    unfold lookupTask updateTask
    rw [dictGet_dictSet_same]
  · intro u hok
    rw [hok]
    exact ⟨rfl, rfl⟩
  · intro msg herr
    rw [herr]
    exact ⟨rfl, rfl⟩
  · intro clock
    exact consumerRun_drains exec clock s.queue.length s le_rfl

/-- Witness for C5: a two-job queue whose first job raises still records the
error message on the first record and drains completely. -/
theorem C5_consumer_transitions_witness :
    (consumerStep (fun b : Bool => if b then Except.ok () else Except.error "boom".data)
        (QueueState.mk [("j1".data, false), ("j2".data, true)]
          [("j1".data, ⟨"j1".data, "hash".data, 0, none, none, .queued, none⟩),
           ("j2".data, ⟨"j2".data, "hash".data, 0, none, none, .queued, none⟩)] 256)
        1 2).statusOf "j1".data
      = some ⟨"j1".data, "hash".data, 0, some 1, some 2, .error, some "boom".data⟩
    ∧ (consumerRun (fun b : Bool => if b then Except.ok () else Except.error "boom".data)
        (fun _ => (1, 2)) 2
        (QueueState.mk [("j1".data, false), ("j2".data, true)]
          [("j1".data, ⟨"j1".data, "hash".data, 0, none, none, .queued, none⟩),
           ("j2".data, ⟨"j2".data, "hash".data, 0, none, none, .queued, none⟩)] 256)).queue
      = [] := by
  have h := C5_consumer_transitions
    (fun b : Bool => if b then Except.ok () else Except.error "boom".data)
    (QueueState.mk [("j1".data, false), ("j2".data, true)]
      [("j1".data, ⟨"j1".data, "hash".data, 0, none, none, .queued, none⟩),
       ("j2".data, ⟨"j2".data, "hash".data, 0, none, none, .queued, none⟩)] 256)
    "j1".data false [("j2".data, true)]
    ⟨"j1".data, "hash".data, 0, none, none, .queued, none⟩ 1 2 rfl (by decide)
  exact ⟨h.2.1, h.2.2.2.2.2.2 (fun _ => (1, 2))⟩

/-- Claim C4: a webhook job whose every delivery attempt fails is attempted
exactly `max_retries` times, with a sleep of `backoff * 2^attempt` seconds
after each failed attempt (so `1s, 2s, 4s` at the defaults, strictly
increasing), after which the dispatcher stops — `delivered` stays false, the
`last_failed_at` marker is persisted exactly when the storage collaborator
cooperates, and a persistence failure is swallowed (the run still completes,
merely without the marker). -/
theorem C4_webhook_retry_bound (deliver : Nat → Bool) (env : PersistEnv)
    (max_retries : Nat) (backoff : Rat)
    (hfail : ∀ i, deliver i = false) (hb : 0 < backoff) :
    (runJob deliver env max_retries backoff).attempts = max_retries
    ∧ (runJob deliver env max_retries backoff).delivered = false
    ∧ (runJob deliver env max_retries backoff).sleeps
        = (List.range max_retries).map (fun i => backoff * 2 ^ i)
    ∧ (runJob deliver env max_retries backoff).sleeps.Chain' (fun a b => a < b)
    ∧ (runJob deliver env max_retries backoff).marked_failed
        = (env.session_available && env.row_exists && env.commit_ok)
    ∧ (runJob deliver { env with commit_ok := false } max_retries backoff).marked_failed
        = false := by
  have hloop := runJobLoop_all_fail deliver backoff hfail max_retries 0
  have hrun : runJob deliver env max_retries backoff
      = ⟨max_retries, (List.range max_retries).map (fun i => backoff * 2 ^ (0 + i)),
          false, env.session_available && env.row_exists && env.commit_ok⟩ := by
    unfold runJob
    rw [hloop]
    simp
  have hrun2 : runJob deliver { env with commit_ok := false } max_retries backoff
      = ⟨max_retries, (List.range max_retries).map (fun i => backoff * 2 ^ (0 + i)),
          false, env.session_available && env.row_exists && false⟩ := by
    unfold runJob
    rw [hloop]
    simp
  have hmap : (List.range max_retries).map (fun i => backoff * 2 ^ (0 + i))
      = (List.range max_retries).map (fun i => backoff * 2 ^ i) := by
    apply List.map_congr_left
    intro i _
    rw [Nat.zero_add]
  refine ⟨by rw [hrun], by rw [hrun], by rw [hrun, hmap], ?_, by rw [hrun], by
    rw [hrun2]; simp⟩
  rw [hrun, hmap]
  apply List.Pairwise.chain'
  apply List.Pairwise.map
  · intro i j hij
    have h2 : (2 : Rat) ^ i < 2 ^ j := by
      apply pow_lt_pow_right₀ (by norm_num) hij
    exact mul_lt_mul_of_pos_left h2 hb
  · exact List.pairwise_lt_range max_retries

/-- Witness for C4: with the default `max_retries = 3` and `backoff = 1`, an
always-failing delivery makes exactly 3 attempts, sleeps 1s, 2s, 4s, and
marks `last_failed_at` when the row exists and the commit succeeds. -/
theorem C4_webhook_retry_bound_witness :
    (runJob (fun _ => false) ⟨true, true, true⟩ 3 1).attempts = 3
    ∧ (runJob (fun _ => false) ⟨true, true, true⟩ 3 1).sleeps = [1, 2, 4]
    ∧ (runJob (fun _ => false) ⟨true, true, true⟩ 3 1).marked_failed = true
    ∧ (runJob (fun _ => false) ⟨true, true, false⟩ 3 1).marked_failed = false := by
  have h := C4_webhook_retry_bound (fun _ => false) ⟨true, true, true⟩ 3 1
    (fun _ => rfl) (by norm_num)
  refine ⟨h.1, ?_, by rw [h.2.2.2.2.1]; rfl, ?_⟩
  · rw [h.2.2.1]
    norm_num [List.range_succ]
  · have := h.2.2.2.2.2
    simpa using this

/-- Claim C10: on every tracked `(IP, path-prefix)` request the middleware
appends the request timestamp to the window before the limit comparison, so a
429-rejected request still consumes window budget (its timestamp is stored),
rejection happens exactly when the count (including the new request) exceeds
the limit, and a client whose previous events all lie strictly more than a
full window in the past is counted as 1 — accepted whenever the limit is at
least one. -/
theorem C10_sliding_window_budget (st : MwState) (ip path method : Str)
    (now : Rat) (pfx : Str) (bucket : SlidingWindow)
    (hm : matchPfx st.prefixes path = some pfx)
    (hmeth : method = "GET".data ∨ method = "HEAD".data ∨ method = "POST".data)
    (hbk : lookupWindow st.buckets (ip, pfx) = some bucket
      ∨ (lookupWindow st.buckets (ip, pfx) = none
          ∧ bucket = mkSlidingWindow st.window_seconds))
    (hw : 0 ≤ bucket.window_seconds) :
    now ∈ (bucket.add_and_prune now).2.events
    ∧ (bucket.add_and_prune now).1 = (bucket.add_and_prune now).2.events.length
    ∧ ((mwDispatch st ip path method now).1 = true
        ↔ st.limit_per_window < ((bucket.add_and_prune now).1 : Int))
    ∧ lookupWindow (mwDispatch st ip path method now).2.buckets (ip, pfx)
        = some (bucket.add_and_prune now).2
    ∧ ((∀ t ∈ bucket.events, t < now - (bucket.window_seconds : Rat)) →
        (bucket.add_and_prune now).1 = 1) := by
  have hpx : ∀ t : Rat, (decide (t < now - (bucket.window_seconds : Rat)) = false)
      ∨ t < now - (bucket.window_seconds : Rat) := by
    intro t
    by_cases h : t < now - (bucket.window_seconds : Rat)
    · exact Or.inr h
    · exact Or.inl (decide_eq_false h)
  have hnow : (decide (now < now - (bucket.window_seconds : Rat))) = false := by
    apply decide_eq_false
    intro hcon
    have : (0 : Rat) < -(bucket.window_seconds : Rat) := by linarith
    have h2 : (0 : Rat) ≤ (bucket.window_seconds : Rat) := by exact_mod_cast hw
    linarith
  have hkeep := dropWhile_append_single
    (fun t => decide (t < now - (bucket.window_seconds : Rat))) bucket.events now hnow
  have hdisp : mwDispatch st ip path method now
      = (decide (st.limit_per_window < ((bucket.add_and_prune now).1 : Int)),
          { st with
            buckets := updateWindow st.buckets (ip, pfx) (bucket.add_and_prune now).2 }) := by
    have hmb : (method == "GET".data || method == "HEAD".data
        || method == "POST".data) = true := by
      rcases hmeth with rfl | rfl | rfl <;> simp
    unfold mwDispatch
    rw [hm]
    dsimp only
    rw [if_pos hmb]
    rcases hbk with hsome | ⟨hnone, hb⟩
    · rw [hsome]
    · rw [hnone, hb]
  refine ⟨hkeep.2, ?_, ?_, ?_, ?_⟩
  · rfl
  · rw [hdisp]
    simp
  · rw [hdisp]
    show lookupWindow (updateWindow st.buckets (ip, pfx) _) (ip, pfx) = _
    unfold lookupWindow updateWindow
    rw [dictGet_dictSet_same]
  · intro hall
    show ((bucket.events ++ [now]).dropWhile
        (fun t => decide (t < now - (bucket.window_seconds : Rat)))).length = 1
    rw [dropWhile_append_all
      (fun t => decide (t < now - (bucket.window_seconds : Rat))) bucket.events now
      (fun t ht => decide_eq_true (hall t ht)) hnow]
    rfl

/-- Witness for C10: with limit 1 and one event 1 s old inside the window,
a new request is rejected with 429 and its timestamp is still stored; after
a pause strictly longer than the full 60 s window the count is back to 1. -/
theorem C10_sliding_window_budget_witness :
    ((mwDispatch
        (MwState.mk [(("ip".data, "/r/".data), SlidingWindow.mk 60 [10])] 1 60
          ["/r/".data]) "ip".data "/r/demo".data "GET".data 11).1 = true)
    ∧ lookupWindow (mwDispatch
        (MwState.mk [(("ip".data, "/r/".data), SlidingWindow.mk 60 [10])] 1 60
          ["/r/".data]) "ip".data "/r/demo".data "GET".data 11).2.buckets
        ("ip".data, "/r/".data) = some (SlidingWindow.mk 60 [10, 11])
    ∧ ((SlidingWindow.mk 60 [10]).add_and_prune 71).1 = 1 := by
  have h := C10_sliding_window_budget
    (MwState.mk [(("ip".data, "/r/".data), SlidingWindow.mk 60 [10])] 1 60
      ["/r/".data]) "ip".data "/r/demo".data "GET".data 11 "/r/".data
    (SlidingWindow.mk 60 [10]) (by decide) (Or.inl rfl) (Or.inl rfl)
    (by decide)
  have h2 := C10_sliding_window_budget
    (MwState.mk [(("ip".data, "/r/".data), SlidingWindow.mk 60 [10])] 1 60
      ["/r/".data]) "ip".data "/r/demo".data "GET".data 71 "/r/".data
    (SlidingWindow.mk 60 [10]) (by decide) (Or.inl rfl) (Or.inl rfl)
    (by decide)
  have hcut : ¬ ((10 : Rat) < 11 - ((60 : Int) : Rat)) := by
    push_cast
    norm_num
  have hc11 : ¬ ((11 : Rat) < 11 - ((60 : Int) : Rat)) := by
    push_cast
    norm_num
  have hap : (SlidingWindow.mk 60 [10]).add_and_prune 11
      = (2, SlidingWindow.mk 60 [10, 11]) := by
    unfold SlidingWindow.add_and_prune
    simp [List.dropWhile_cons, hcut]
    norm_num
  refine ⟨?_, ?_, h2.2.2.2.2 ?_⟩
  · apply h.2.2.1.mpr
    rw [hap]
    norm_num
  · have h4 := h.2.2.2.1
    rw [hap] at h4
    exact h4
  · intro t ht
    simp only [List.mem_singleton] at ht
    subst ht
    push_cast
    norm_num

/-- Claim C1: one `GET|HEAD /r/slug` request creates exactly one `RouteHit`
iff the rate check passes and the slug resolves; a 429 or 404 outcome
(including storage unavailable) writes nothing to the database; a 422
`invalid_url` outcome has still recorded the hit — click recording precedes
target-URL validation — and issues no redirect; 429 happens exactly when the
token bucket denies, and 422 exactly when the stored target URL fails
validation. -/
theorem C1_redirect_click_semantics (slug : Str) (req : RedirectRequest)
    (bucket : TokenBucket) (now : Rat) (db : Option (Str → Option RouteRow))
    (env : Option Str) :
    ((redirectSlug slug req bucket now db env).hits.length = 1
      ↔ ((bucket.try_consume now 1).1 = true
          ∧ ∃ f route, db = some f ∧ f slug = some route))
    ∧ ((redirectSlug slug req bucket now db env).response = .rateLimited
        ↔ (bucket.try_consume now 1).1 = false)
    ∧ ((redirectSlug slug req bucket now db env).response = .rateLimited
        ∨ (redirectSlug slug req bucket now db env).response = .notFound →
        (redirectSlug slug req bucket now db env).hits = [])
    ∧ (∀ d, (redirectSlug slug req bucket now db env).response = .invalidUrl d →
        (redirectSlug slug req bucket now db env).hits.length = 1)
    ∧ (∀ d loc, (redirectSlug slug req bucket now db env).response = .invalidUrl d →
        (redirectSlug slug req bucket now db env).response ≠ .redirected loc)
    ∧ (∀ f route, db = some f → f slug = some route →
        (bucket.try_consume now 1).1 = true →
        (((redirectSlug slug req bucket now db env).response
            = .invalidUrl (invalidDetail (getAllowedTargetSchemes env)))
          ↔ (validateTargetUrl (some route.target_url)
              (getAllowedTargetSchemes env)).toOption = none)) := by
  by_cases hok : (bucket.try_consume now 1).1 = true
  · rcases db with _ | f
    · have hred : redirectSlug slug req bucket now none env
          = ⟨.notFound, [], (bucket.try_consume now 1).2⟩ := by
        unfold redirectSlug
        rw [hok]
        rfl
      rw [hred]
      refine ⟨?_, by simp [hok], fun _ => rfl, by simp, by simp, ?_⟩
      · simp only [List.length_nil]
        constructor
        · intro h
          exact absurd h (by norm_num)
        · rintro ⟨-, f2, route2, hf2, -⟩
          exact absurd hf2 (by simp)
      · intro f route hf
        exact absurd hf (by simp)
    · rcases hroute : f slug with _ | route
      · have hred : redirectSlug slug req bucket now (some f) env
            = ⟨.notFound, [], (bucket.try_consume now 1).2⟩ := by
          unfold redirectSlug
          rw [hok]
          dsimp only
          rw [hroute]
          rfl
        rw [hred]
        refine ⟨?_, by simp [hok], fun _ => rfl, by simp, by simp, ?_⟩
        · simp only [List.length_nil]
          constructor
          · intro h
            exact absurd h (by norm_num)
          · rintro ⟨-, f2, route2, hf2, hr2⟩
            injection hf2 with hf2
            subst hf2
            rw [hroute] at hr2
            exact absurd hr2 (by simp)
        · intro f2 route2 hf2 hr2
          injection hf2 with hf2
          subst hf2
          rw [hroute] at hr2
          exact absurd hr2 (by simp)
      · rcases hval : validateTargetUrl (some route.target_url)
            (getAllowedTargetSchemes env) with e | okurl
        · have hred : redirectSlug slug req bucket now (some f) env
              = ⟨.invalidUrl (invalidDetail (getAllowedTargetSchemes env)),
                  [mkHit req route], (bucket.try_consume now 1).2⟩ := by
            unfold redirectSlug
            rw [hok]
            dsimp only
            rw [hroute]
            dsimp only
            rw [hval]
            rfl
          rw [hred]
          refine ⟨?_, by simp [hok], by simp, fun d _ => rfl, by simp, ?_⟩
          · simp only [List.length_singleton, hok, true_and]
            exact iff_of_true trivial ⟨f, route, rfl, hroute⟩
          · intro f2 route2 hf2 hr2 _
            injection hf2 with hf2
            subst hf2
            rw [hroute] at hr2
            injection hr2 with hr2
            subst hr2
            rw [hval]
            simp [Except.toOption]
        · have hred : redirectSlug slug req bucket now (some f) env
              = ⟨.redirected okurl, [mkHit req route],
                  (bucket.try_consume now 1).2⟩ := by
            unfold redirectSlug
            rw [hok]
            dsimp only
            rw [hroute]
            dsimp only
            rw [hval]
            rfl
          rw [hred]
          refine ⟨?_, by simp [hok], by simp, by simp, by simp, ?_⟩
          · simp only [List.length_singleton, hok, true_and]
            exact iff_of_true trivial ⟨f, route, rfl, hroute⟩
          · intro f2 route2 hf2 hr2 _
            injection hf2 with hf2
            subst hf2
            rw [hroute] at hr2
            injection hr2 with hr2
            subst hr2
            rw [hval]
            simp [Except.toOption]
  · have hok2 : (bucket.try_consume now 1).1 = false := by
      rcases h : (bucket.try_consume now 1).1
      · rfl
      · exact absurd h hok
    have hred : redirectSlug slug req bucket now db env
        = ⟨.rateLimited, [], (bucket.try_consume now 1).2⟩ := by
      unfold redirectSlug
      rw [hok2]
      rfl
    rw [hred]
    refine ⟨?_, iff_of_true rfl hok2, fun _ => rfl, by simp, by simp, ?_⟩
    · simp only [List.length_nil]
      constructor
      · intro h
        exact absurd h (by norm_num)
      · rintro ⟨hc, -⟩
        rw [hok2] at hc
        exact absurd hc (by simp)
    intro f route hf hr hcons
    exact absurd hcons hok

/-- Witness for C1: a full bucket, a database where `demo` resolves, and a
`GET /r/demo` request produce exactly one recorded `RouteHit`. -/
theorem C1_redirect_click_semantics_witness :
    (redirectSlug "demo".data
        (RedirectRequest.mk none (some "9.9.9.9".data) none none none [])
        (TokenBucket.mk 10 10 10 0) 0
        (some (fun s => if s == "demo".data then
          some (RouteRow.mk 1 "https://example.com/x".data) else none))
        none).hits.length = 1 := by
  have hcons : ((TokenBucket.mk 10 10 10 0).try_consume 0 1).1 = true := by
    unfold TokenBucket.try_consume TokenBucket.refillAt
    norm_num
  exact (C1_redirect_click_semantics "demo".data
    (RedirectRequest.mk none (some "9.9.9.9".data) none none none [])
    (TokenBucket.mk 10 10 10 0) 0
    (some (fun s => if s == "demo".data then
      some (RouteRow.mk 1 "https://example.com/x".data) else none))
    none).1.mpr
    ⟨hcons, _, RouteRow.mk 1 "https://example.com/x".data, rfl, by rfl⟩

/-- Claim C8: `validate_target_url` rejects a URL whose (lowercased) scheme
is outside the allow-list, rejects a URL whose authority is empty (in both
the scheme-present and scheme-less shapes), treats a scheme-less URL as
using the first allowed scheme (the returned location starts with it), and
on success returns the `urlunparse` normalization — allow-listed scheme,
lowercased trimmed authority, path defaulted to `/` — which is exactly the
value the redirect gate sends as the 302 `Location`. -/
theorem C8_validate_target_url (url : Str) (allowed : List Str) (aS : List Str)
    (haS : aS = normalizeAllowedSchemes allowed) :
    (∀ p, pyUrlparse (pyStrip url) = some p → pyLower p.scheme ≠ [] →
      aS.contains (pyLower p.scheme) = false →
      validateTargetUrl (some url) allowed = .error ())
    ∧ (∀ p, pyUrlparse (pyStrip url) = some p → pyLower p.scheme ≠ [] →
        pyStrip p.netloc = [] →
        validateTargetUrl (some url) allowed = .error ())
    ∧ (∀ p q, pyUrlparse (pyStrip url) = some p → pyLower p.scheme = [] →
        pyUrlparse (defaultScheme aS ++ [':', '/', '/'] ++ pyStrip url) = some q →
        pyStrip q.netloc = [] →
        validateTargetUrl (some url) allowed = .error ())
    ∧ (∀ out p, validateTargetUrl (some url) allowed = .ok out →
        pyUrlparse (pyStrip url) = some p → pyLower p.scheme = [] →
        defaultScheme aS ++ [':', '/', '/'] <+: out)
    ∧ (∀ out, validateTargetUrl (some url) allowed = .ok out →
        ∃ (ep : ParseResult) (s2 : Str),
          aS.contains s2 = true ∧ pyStrip ep.netloc ≠ [] ∧
          out = pyUrlunparse
            { ep with
              scheme := s2
              netloc := pyLower (pyStrip ep.netloc)
              path := if ep.path = [] then ['/'] else ep.path })
    ∧ (∀ (loc slug : Str) (req : RedirectRequest) (bucket : TokenBucket)
        (now : Rat) (f : Str → Option RouteRow) (env : Option Str),
        (redirectSlug slug req bucket now (some f) env).response = .redirected loc →
        ∃ route, f slug = some route
          ∧ validateTargetUrl (some route.target_url)
              (getAllowedTargetSchemes env) = .ok loc) := by
  subst haS
  have hboolF : ∀ b : Bool, ¬ b = true → b = false := by
    intro b hb
    rcases h : b
    · rfl
    · exact absurd h hb
  have hmem : defaultScheme (normalizeAllowedSchemes allowed)
      ∈ normalizeAllowedSchemes allowed := by
    simpa using (defaultScheme_facts allowed).1
  refine ⟨?_, ?_, ?_, ?_, ?_, ?_⟩
  · intro p hp hne hcon
    have hconM : pyLower p.scheme ∉ normalizeAllowedSchemes allowed := by
      simpa using hcon
    by_cases hv : (pyStrip url).isEmpty = true
    · simp [validateTargetUrl, hv]
    · simp [validateTargetUrl, hboolF _ hv, hp, hne, hconM]
  · intro p hp hne hnet
    by_cases hv : (pyStrip url).isEmpty = true
    · simp [validateTargetUrl, hv]
    · by_cases hconM : pyLower p.scheme ∈ normalizeAllowedSchemes allowed
      · simp [validateTargetUrl, hboolF _ hv, hp, hne, hconM, hnet]
      · simp [validateTargetUrl, hboolF _ hv, hp, hne, hconM]
  · intro p q hp hsch hq hnet
    have hq2 := hq
    simp only [List.append_assoc, List.cons_append, List.nil_append] at hq2
    by_cases hv : (pyStrip url).isEmpty = true
    · simp [validateTargetUrl, hv]
    · simp [validateTargetUrl, hboolF _ hv, hp, hsch, hq2, hmem, hnet]
  · intro out p hok hp hsch
    by_cases hv : (pyStrip url).isEmpty = true
    · simp [validateTargetUrl, hv] at hok
    · rcases hq : pyUrlparse (defaultScheme (normalizeAllowedSchemes allowed)
          ++ ':' :: '/' :: '/' :: pyStrip url) with _ | ep
      · simp [validateTargetUrl, hboolF _ hv, hp, hsch, hq] at hok
      · by_cases hnet : pyStrip ep.netloc = []
        · simp [validateTargetUrl, hboolF _ hv, hp, hsch, hq, hmem, hnet] at hok
        · simp [validateTargetUrl, hboolF _ hv, hp, hsch, hq, hmem, hnet] at hok
          rw [← hok]
          unfold pyUrlunparse
          apply urlunsplit_authority_prefix
          · rw [pyLower_isEmpty]
            rcases hh : (pyStrip ep.netloc).isEmpty
            · rfl
            · exact absurd (List.isEmpty_iff.mp hh) hnet
          · exact (defaultScheme_facts allowed).2
  · intro out hok
    by_cases hv : (pyStrip url).isEmpty = true
    · simp [validateTargetUrl, hv] at hok
    · rcases hp : pyUrlparse (pyStrip url) with _ | parsed
      · simp [validateTargetUrl, hboolF _ hv, hp] at hok
      · by_cases hsch : pyLower parsed.scheme = []
        · rcases hq : pyUrlparse (defaultScheme (normalizeAllowedSchemes allowed)
              ++ ':' :: '/' :: '/' :: pyStrip url) with _ | ep
          · simp [validateTargetUrl, hboolF _ hv, hp, hsch, hq] at hok
          · by_cases hnet : pyStrip ep.netloc = []
            · simp [validateTargetUrl, hboolF _ hv, hp, hsch, hq, hmem, hnet] at hok
            · simp [validateTargetUrl, hboolF _ hv, hp, hsch, hq, hmem, hnet] at hok
              exact ⟨ep, defaultScheme (normalizeAllowedSchemes allowed),
                (defaultScheme_facts allowed).1, hnet, hok.symm⟩
        · by_cases hconM : pyLower parsed.scheme ∈ normalizeAllowedSchemes allowed
          · by_cases hnet : pyStrip parsed.netloc = []
            · simp [validateTargetUrl, hboolF _ hv, hp, hsch, hconM, hnet] at hok
            · simp [validateTargetUrl, hboolF _ hv, hp, hsch, hconM, hnet] at hok
              have hcon2 : (normalizeAllowedSchemes allowed).contains
                  (pyLower parsed.scheme) = true := by
                simpa using hconM
              exact ⟨parsed, pyLower parsed.scheme, hcon2, hnet, hok.symm⟩
          · simp [validateTargetUrl, hboolF _ hv, hp, hsch, hconM] at hok
  · intro loc slug2 req2 bucket2 now2 f2 env2 hresp
    by_cases hok : (bucket2.try_consume now2 1).1 = true
    · rcases hroute : f2 slug2 with _ | route
      · have hred : redirectSlug slug2 req2 bucket2 now2 (some f2) env2
            = ⟨.notFound, [], (bucket2.try_consume now2 1).2⟩ := by
          unfold redirectSlug
          rw [hok]
          dsimp only
          rw [hroute]
          rfl
        rw [hred] at hresp
        exact absurd hresp (by simp)
      · rcases hval : validateTargetUrl (some route.target_url)
            (getAllowedTargetSchemes env2) with e | okurl
        · have hred : redirectSlug slug2 req2 bucket2 now2 (some f2) env2
              = ⟨.invalidUrl (invalidDetail (getAllowedTargetSchemes env2)),
                  [mkHit req2 route], (bucket2.try_consume now2 1).2⟩ := by
            unfold redirectSlug
            rw [hok]
            dsimp only
            rw [hroute]
            dsimp only
            rw [hval]
            rfl
          rw [hred] at hresp
          exact absurd hresp (by simp)
        · have hred : redirectSlug slug2 req2 bucket2 now2 (some f2) env2
              = ⟨.redirected okurl, [mkHit req2 route],
                  (bucket2.try_consume now2 1).2⟩ := by
            unfold redirectSlug
            rw [hok]
            dsimp only
            rw [hroute]
            dsimp only
            rw [hval]
            rfl
          rw [hred] at hresp
          refine ⟨route, rfl, ?_⟩
          rw [hval]
          have h2 : RedirectResult.redirected okurl = .redirected loc := hresp
          injection h2 with h3
          rw [h3]
    · have hok2 : (bucket2.try_consume now2 1).1 = false := hboolF _ hok
      have hred : redirectSlug slug2 req2 bucket2 now2 (some f2) env2
          = ⟨.rateLimited, [], (bucket2.try_consume now2 1).2⟩ := by
        unfold redirectSlug
        rw [hok2]
        rfl
      rw [hred] at hresp
      exact absurd hresp (by simp)

/-- Claim C6: `parse_ref` prefers UTM values from the redirect request's own
query string over values embedded in the referrer URL — a key set by the
request query keeps its request value, and only keys the request leaves
unset fall back to the value extracted from the referrer URL's query; in
particular the spec's concrete instance yields `utm.source = "campaign"`. -/
theorem C6_request_query_precedence (h : Option Str) (q : Str) :
    (∀ k v, (extractUtm q).get k = some v → (parseRef h q).utm.get k = some v)
    ∧ (∀ k, (extractUtm q).get k = none → optTruthy h = true →
        (parseRef h q).utm.get k = (extractUtm (refQueryOf h)).get k)
    ∧ (parseRef (some "https://example.com?utm_source=ref".data)
        "utm_source=campaign".data).utm.source = some "campaign".data := by
  refine ⟨?_, ?_, by decide⟩
  · intro k v hv
    have hvne : v ≠ [] := by
      intro hc
      subst hc
      exact extractUtm_get_ne_nil q k hv
    unfold parseRef
    by_cases hh : optTruthy h = true
    · rw [if_pos hh]
      show (fillMissing (extractUtm q) (extractUtm (refQueryOf h))).get k = some v
      rw [fillMissing_get, hv]
      unfold fillKey
      rcases (extractUtm (refQueryOf h)).get k with _ | w
      · rfl
      · dsimp only
        rw [if_pos]
        show (!v.isEmpty) = true
        rcases hvv : v.isEmpty
        · rfl
        · exact absurd (List.isEmpty_iff.mp hvv) hvne
    · rw [if_neg hh]
      exact hv
  · intro k hk hh
    unfold parseRef
    rw [if_pos hh]
    show (fillMissing (extractUtm q) (extractUtm (refQueryOf h))).get k = _
    rw [fillMissing_get, hk]
    unfold fillKey
    rcases (extractUtm (refQueryOf h)).get k with _ | w
    · rfl
    · rfl

/-- Witness for C6: with the header embedding `utm_source=ref` and the
request query `utm_source=campaign`, the request value wins. -/
theorem C6_request_query_precedence_witness :
    (parseRef (some "https://example.com?utm_source=ref".data)
      "utm_source=campaign".data).utm.get .source = some "campaign".data := by
  exact (C6_request_query_precedence
    (some "https://example.com?utm_source=ref".data)
    "utm_source=campaign".data).1 .source "campaign".data (by decide)

/-- Witness for C8: `javascript:alert(1)` is rejected, and the scheme-less
`example.com` validates with the first allowed scheme (`https`) prefixed. -/
theorem C8_validate_target_url_witness :
    validateTargetUrl (some "javascript:alert(1)".data)
      ["https".data, "http".data] = .error ()
    ∧ "https".data ++ [':', '/', '/'] <+: "https://example.com/".data := by
  have h := C8_validate_target_url "javascript:alert(1)".data
    ["https".data, "http".data] _ rfl
  have h2 := C8_validate_target_url "example.com".data
    ["https".data, "http".data] _ rfl
  constructor
  · exact h.1 _ rfl (by decide) (by decide)
  · exact h2.2.2.2.1 "https://example.com/".data _ rfl rfl rfl

/-- Counterexample to claim C7 as stated: the round trip does not recover
every host. For `host="a?b"` (no UTM values), `serialize_ref` emits `"a?b"`,
but `decode_ref` splits at the first `?` and returns host `"a"`, although the
lowercased trimmed form of the host is `"a?b"` itself. -/
theorem C7_roundtrip_cex :
    serializeRef (some "a?b".data) blankUtm none = some "a?b".data
    ∧ decodeRef (some "a?b".data) = some ⟨some "a".data, blankUtm⟩
    ∧ pyLower (pyStrip "a?b".data) = "a?b".data
    ∧ "a".data ≠ "a?b".data := by
  decide

/-- Claim C7 (amended): for any host whose stripped lowercased form is
non-empty, contains no `?` and no substring `://`, and any UTM mapping whose
values are ASCII, `decode_ref(serialize_ref(host, utm))` recovers exactly the
lowercased stripped host and the UTM mapping with absent or empty values
dropped (non-empty values exactly); serializing the decoded pair again yields
the same encoded string, so the round trip is idempotent. -/
theorem C7_roundtrip_amended (host : Str) (utm : Utm)
    (h1 : pyLower (pyStrip host) ≠ [])
    (h2 : '?' ∉ pyLower (pyStrip host))
    (h3 : containsSub (':' :: '/' :: '/' :: []) (pyLower (pyStrip host)) = false)
    (h4 : asciiUtm utm = true) :
    ∃ enc : Str,
      serializeRef (some host) utm none = some enc
      ∧ decodeRef (some enc) = some ⟨some (pyLower (pyStrip host)), normUtm utm⟩
      ∧ serializeRef (some (pyLower (pyStrip host))) (normUtm utm) none = some enc := by
  by_cases hparts : (utmPairs utm).isEmpty = true
  · have hnilp : utmPairs utm = [] := List.isEmpty_iff.mp hparts
    refine ⟨pyLower (pyStrip host), ?_, ?_, ?_⟩
    · rw [serializeRef_host host utm h1, if_pos hparts]
    · rw [decodeRef_plain _ h1 (chost_strip host) (chost_clean host) h2 h3,
        normUtm_of_pairs_nil utm hnilp]
    · have hp2 : (utmPairs (normUtm utm)).isEmpty = true := by
        rw [utmPairs_normUtm]
        exact hparts
      rw [serializeRef_host _ (normUtm utm) (by rw [chost_clean]; exact h1),
        if_pos hp2, chost_clean]
  · have hqne : urlencode (utmPairs utm) ≠ [] := by
      rcases hup : utmPairs utm with _ | ⟨p, rest⟩
      · rw [hup] at hparts
        exact absurd rfl hparts
      · exact urlencode_ne_nil p rest
    have hqsp : ∀ c, c ∈ urlencode (utmPairs utm) → pyIsSpace c = false :=
      fun c hc => (urlencode_char_facts _ c hc).2.2
    have hqcolon : ':' ∉ urlencode (utmPairs utm) := by
      intro hc
      exact (urlencode_char_facts _ ':' hc).1 rfl
    have hstrip := pyStrip_id_append_query (pyLower (pyStrip host))
      (urlencode (utmPairs utm)) h1 (chost_head host) hqsp hqne
    refine ⟨pyLower (pyStrip host) ++ '?' :: urlencode (utmPairs utm), ?_, ?_, ?_⟩
    · rw [serializeRef_host host utm h1, if_neg hparts]
    · rw [decodeRef_hostquery _ _ h1 hstrip (chost_clean host) h2 h3 hqcolon,
        extractUtm_urlencode utm h4]
    · rw [serializeRef_host _ (normUtm utm) (by rw [chost_clean]; exact h1),
        if_neg (by rw [utmPairs_normUtm]; exact hparts), chost_clean,
        utmPairs_normUtm]

/-- Witness for C7: host `"Example.COM"` with UTM source `"x"` satisfies the
amended hypotheses, so the round trip recovers host `"example.com"` and
source `"x"`. -/
theorem C7_roundtrip_amended_witness :
    (pyLower (pyStrip "Example.COM".data) ≠ []
      ∧ '?' ∉ pyLower (pyStrip "Example.COM".data)
      ∧ containsSub (':' :: '/' :: '/' :: [])
          (pyLower (pyStrip "Example.COM".data)) = false
      ∧ asciiUtm ⟨some "x".data, none, none, none, none⟩ = true)
    ∧ ∃ enc : Str,
      serializeRef (some "Example.COM".data)
        ⟨some "x".data, none, none, none, none⟩ none = some enc
      ∧ decodeRef (some enc)
        = some ⟨some (pyLower (pyStrip "Example.COM".data)),
            normUtm ⟨some "x".data, none, none, none, none⟩⟩
      ∧ serializeRef (some (pyLower (pyStrip "Example.COM".data)))
          (normUtm ⟨some "x".data, none, none, none, none⟩) none = some enc :=
  ⟨⟨by decide, by decide, by decide, by decide⟩,
    C7_roundtrip_amended "Example.COM".data ⟨some "x".data, none, none, none, none⟩
      (by decide) (by decide) (by decide) (by decide)⟩

end RouteForge
